import Mathlib

/-!
Verification of the `discord-electron` installer (`run.py`).

The development shallowly embeds `run.py`:

* `parseVersionUrl` embeds `get_version_info`'s
  `re.fullmatch(regex, url)` over the final redirect URL, where the
  regex is the source's pattern matching a trailing
  `<name>-<major>.<minor>.<patch>.tar.gz` component.
* Python text substitutions (`str.replace`, the three `re.sub` patch
  rules) are embedded as executable functions on `List Char`.
* The driver `_do_install` / `_do_needs_update` is embedded as a
  program in a state-trace-abort monad `M`: the state `St` models the
  pieces of the filesystem the script reads and writes, the trace
  records every observable action (subprocess invocations, network
  requests, file writes, prints), and the abort channel models
  `exit(c)` / an uncaught `CalledProcessError`.

Python exit statuses are modelled as the resulting process statuses:
`exit()` is 0, `exit(1)` is 1, `exit(-1)` is 255 (status byte), and an
uncaught subprocess error terminates the interpreter with status 1.
-/

namespace DiscordInstaller

/-- `VersionInfo` dataclass of `run.py`. -/
structure VersionInfo where
  url : String
  archive : String
  name : String
  version : String
deriving DecidableEq, Repr

/-! ## The redirect-URL pattern of `get_version_info`

Source: `re.fullmatch(r'.*/((\S+)-(\d+\.\d+\.\d+)\.tar\.gz)', url)`.

Semantics used by the embedding (CPython `re`, no DOTALL, ASCII data):
`.`, `\S` and `\d` all reject `'\n'` (and `\S` rejects all
whitespace), so a newline anywhere in the URL kills every alternative;
`.*` is greedy, so the last `/` whose suffix matches the tail pattern
wins; inside the tail, `\S+` is greedy, and only the *last* `-` of the
suffix can start the version group (a version group is digits and dots
only, so a version group containing a later `-` is impossible), hence
the split at the last dash is the one the engine produces. -/

/-- Dot-separated fields, as produced by splitting on `'.'`. -/
def splitOnDot : List Char → List (List Char)
  | [] => [[]]
  | c :: cs =>
    let r := splitOnDot cs
    if c = '.' then [] :: r
    else
      match r with
      | h :: t => (c :: h) :: t
      | [] => [[c]]

/-- Nonempty all-decimal-digit field (`\d+`). -/
def isDigits (l : List Char) : Bool := !l.isEmpty && l.all Char.isDigit

/-- `\d+\.\d+\.\d+`, matched against a whole string. -/
def isVersion (l : List Char) : Bool :=
  match splitOnDot l with
  | [a, b, c] => isDigits a && isDigits b && isDigits c
  | _ => false

/-- Whitespace-free field (content condition of `\S+`). -/
def noWs (l : List Char) : Bool := l.all (fun c => !c.isWhitespace)

/-- Split a list at the first occurrence of `c` (occurrence removed). -/
def splitAtFirst (c : Char) : List Char → Option (List Char × List Char)
  | [] => none
  | x :: xs =>
    if x = c then some ([], xs)
    else
      match splitAtFirst c xs with
      | some (b, a) => some (x :: b, a)
      | none => none

/-- The literal tail `".tar.gz"` of the pattern. -/
def tarGz : List Char := ['.', 't', 'a', 'r', '.', 'g', 'z']

/-- `".tar.gz"` reversed. -/
def tarGzRev : List Char := ['z', 'g', '.', 'r', 'a', 't', '.']

/-- Fullmatch of `(\S+)-(\d+\.\d+\.\d+)\.tar\.gz` against `s`,
returning `(name, version)`.  The version group is dash-free, so the
greedy `\S+` stops exactly at the last dash of `s`; splitting the
reversed core at its first dash realises that. -/
def tailMatch (s : List Char) : Option (List Char × List Char) :=
  if tarGzRev.isPrefixOf s.reverse then
    match splitAtFirst '-' (s.reverse.drop 7) with
    | some (rv, rn) =>
      let v := rv.reverse
      let n := rn.reverse
      if isVersion v && !n.isEmpty && noWs n then some (n, v) else none
    | none => none
  else none

/-- Fullmatch of `.*/((\S+)-(\d+\.\d+\.\d+)\.tar\.gz)`, returning
`(archive, name, version)`.  Later slashes are preferred (greedy `.*`);
a newline anywhere fails every alternative, since `.` cannot cross it
and the tail groups reject whitespace. -/
def urlMatch : List Char → Option (List Char × List Char × List Char)
  | [] => none
  | c :: cs =>
    if c = '\n' then none
    else
      match urlMatch cs with
      | some r => some r
      | none =>
        if c = '/' then
          match tailMatch cs with
          | some (n, v) => some (cs, n, v)
          | none => none
        else none

/-- The pure core of `get_version_info`: the `VersionInfo` built from
the final redirect URL, or `none` where the source prints
`Invalid response URL` and exits. -/
def parseVersionUrl (url : String) : Option VersionInfo :=
  match urlMatch url.data with
  | some (a, n, v) => some ⟨url, ⟨a⟩, ⟨n⟩, ⟨v⟩⟩
  | none => none

/-! ### Correctness lemmas for the URL matcher -/

theorem isPrefixOf_append_self (l r : List Char) : l.isPrefixOf (l ++ r) = true := by
  induction l with
  | nil => cases r <;> rfl
  | cons c cs ih => simp [List.isPrefixOf, ih]

theorem splitOnDot_append_dot (xs ys : List Char) (hx : '.' ∉ xs) :
    splitOnDot (xs ++ '.' :: ys) = xs :: splitOnDot ys := by
  induction xs with
  | nil => simp [splitOnDot]
  | cons c cs ih =>
    simp only [List.mem_cons, not_or] at hx
    have h1 : ¬c = '.' := fun h => hx.1 h.symm
    simp only [List.cons_append, splitOnDot, List.append_eq, if_neg h1, ih hx.2]

theorem splitOnDot_no_dot (xs : List Char) (hx : '.' ∉ xs) :
    splitOnDot xs = [xs] := by
  induction xs with
  | nil => rfl
  | cons c cs ih =>
    simp only [List.mem_cons, not_or] at hx
    have h1 : ¬c = '.' := fun h => hx.1 h.symm
    simp only [splitOnDot, if_neg h1, ih hx.2]

theorem isDigits_no_dot {l : List Char} (h : isDigits l = true) : '.' ∉ l := by
  intro hmem
  simp only [isDigits, Bool.and_eq_true, List.all_eq_true] at h
  have := h.2 _ hmem
  simp [Char.isDigit] at this

theorem isDigits_no_dash {l : List Char} (h : isDigits l = true) : '-' ∉ l := by
  intro hmem
  simp only [isDigits, Bool.and_eq_true, List.all_eq_true] at h
  have := h.2 _ hmem
  simp [Char.isDigit] at this

theorem isDigits_no_slash {l : List Char} (h : isDigits l = true) : '/' ∉ l := by
  intro hmem
  simp only [isDigits, Bool.and_eq_true, List.all_eq_true] at h
  have := h.2 _ hmem
  simp [Char.isDigit] at this

/-- A version string `a.b.c` made of digit groups passes `isVersion`. -/
theorem isVersion_of_groups {a b c : List Char}
    (ha : isDigits a = true) (hb : isDigits b = true) (hc : isDigits c = true) :
    isVersion (a ++ '.' :: (b ++ '.' :: c)) = true := by
  unfold isVersion
  rw [splitOnDot_append_dot _ _ (isDigits_no_dot ha),
      splitOnDot_append_dot _ _ (isDigits_no_dot hb),
      splitOnDot_no_dot _ (isDigits_no_dot hc)]
  simp [ha, hb, hc]

theorem splitAtFirst_append {c : Char} (xs ys : List Char) (hx : c ∉ xs) :
    splitAtFirst c (xs ++ c :: ys) = some (xs, ys) := by
  induction xs with
  | nil => simp [splitAtFirst]
  | cons x xs ih =>
    have hxc : ¬x = c := fun h => (by simp [h] at hx)
    simp only [List.cons_append, splitAtFirst, List.append_eq, if_neg hxc,
      ih (by simp at hx; exact hx.2)]

theorem version_group_no_dash {a b c : List Char}
    (ha : isDigits a = true) (hb : isDigits b = true) (hc : isDigits c = true) :
    '-' ∉ a ++ '.' :: (b ++ '.' :: c) := by
  simp only [List.mem_append, List.mem_cons, not_or]
  exact ⟨isDigits_no_dash ha, by simp, isDigits_no_dash hb, by simp, isDigits_no_dash hc⟩

theorem version_group_no_slash {a b c : List Char}
    (ha : isDigits a = true) (hb : isDigits b = true) (hc : isDigits c = true) :
    '/' ∉ a ++ '.' :: (b ++ '.' :: c) := by
  simp only [List.mem_append, List.mem_cons, not_or]
  exact ⟨isDigits_no_slash ha, by simp, isDigits_no_slash hb, by simp, isDigits_no_slash hc⟩

/-- `tailMatch` succeeds on a well-formed archive component. -/
theorem tailMatch_archive {n v : List Char}
    (hn : n ≠ []) (hws : noWs n = true) (hv : isVersion v = true)
    (hdash : '-' ∉ v) :
    tailMatch (n ++ '-' :: (v ++ tarGz)) = some (n, v) := by
  have hrev : (n ++ '-' :: (v ++ tarGz)).reverse
      = tarGzRev ++ (v.reverse ++ '-' :: n.reverse) := by
    simp [tarGz, tarGzRev]
  have hlen : tarGzRev.length = 7 := rfl
  unfold tailMatch
  rw [hrev]
  simp only [isPrefixOf_append_self, if_true]
  rw [← hlen, List.drop_left, splitAtFirst_append _ _ (by simpa using hdash)]
  simp only [List.reverse_reverse]
  rw [if_pos (by simp [hv, hws, hn])]

theorem urlMatch_no_slash (s : List Char) (h : '/' ∉ s) : urlMatch s = none := by
  induction s with
  | nil => rfl
  | cons c cs ih =>
    simp only [List.mem_cons, not_or] at h
    simp only [urlMatch]
    split
    · rfl
    · rw [ih h.2]
      simp only
      rw [if_neg (fun hc => h.1 hc.symm)]

/-- The archive component of a well-formed URL contains no slash. -/
theorem archive_no_slash {n v : List Char} (hslash : '/' ∉ n) (hvslash : '/' ∉ v) :
    '/' ∉ n ++ '-' :: (v ++ tarGz) := by
  intro hmem
  rcases List.mem_append.mp hmem with h | h
  · exact hslash h
  · rcases List.mem_cons.mp h with h | h
    · exact absurd h (by decide)
    · rcases List.mem_append.mp h with h | h
      · exact hvslash h
      · exact absurd h (by decide)

/-- The full matcher on a well-formed URL: prefix without newline,
slash-free whitespace-free nonempty name, three-digit-group version. -/
theorem urlMatch_wellformed (P n v : List Char)
    (hP : '\n' ∉ P) (hn : n ≠ []) (hws : noWs n = true) (hslash : '/' ∉ n)
    (hv : isVersion v = true) (hvdash : '-' ∉ v) (hvslash : '/' ∉ v) :
    urlMatch (P ++ '/' :: (n ++ '-' :: (v ++ tarGz)))
      = some (n ++ '-' :: (v ++ tarGz), n, v) := by
  induction P with
  | nil =>
    rw [List.nil_append]
    simp only [urlMatch, List.append_eq]
    rw [urlMatch_no_slash _ (archive_no_slash hslash hvslash)]
    simp [tailMatch_archive hn hws hv hvdash]
  | cons c P ih =>
    simp only [List.mem_cons, not_or] at hP
    simp only [List.cons_append, urlMatch, List.append_eq]
    rw [if_neg (fun hc => hP.1 hc.symm), ih hP.2]


/-! ## Text substitutions of the patch phase

`_do_install` rewrites three members of the unpacked resource container
(`resources/app`), using Python `str.replace` (all occurrences,
leftmost, non-overlapping) and `re.sub` with line-oriented patterns.
The install prefix is the source's `dest = Path('/usr/local')`,
`lib = 'lib/discord'`, `bin/discord`. -/

/-- Python `s.replace(t, r)`: scan left to right, replace each leftmost
occurrence of `t`, continue after the replaced occurrence.  `fuel`
bounds the recursion by the length of the remaining input (the scan
consumes at least one character per step for the nonempty tokens used
here). -/
def replaceAllF (t r : List Char) : Nat → List Char → List Char
  | _, [] => []
  | 0, s => s
  | fuel + 1, c :: cs =>
    if t.isPrefixOf (c :: cs) then r ++ replaceAllF t r fuel (cs.drop (t.length - 1))
    else c :: replaceAllF t r fuel cs

/-- Python `s.replace(t, r)`. -/
def replaceAll (t r s : List Char) : List Char := replaceAllF t r s.length s

/-- A prefix of an append is a prefix of the left part, or extends it. -/
theorem prefix_append_cases {X a b : List Char} (h : X <+: a ++ b) :
    X <+: a ∨ a <+: X := by
  rcases h with ⟨w, hw⟩
  rcases List.append_eq_append_iff.mp hw with ⟨a1, ha, _⟩ | ⟨c1, hc, _⟩
  · exact Or.inl ⟨a1, ha.symm⟩
  · exact Or.inr ⟨c1, hc.symm⟩

/-- An occurrence of `T` inside `r ++ O` lies inside `O`, or begins at
an offset `p` inside `r`, where `T` and `r.drop p` must agree up to the
shorter length. -/
theorem infix_append_cases {T r O : List Char} (h : T <:+: r ++ O) :
    T <:+: O ∨ ∃ p, p < r.length ∧ (r.drop p <+: T ∨ T <+: r.drop p) := by
  rcases h with ⟨u, v, huv⟩
  have huv2 : u ++ (T ++ v) = r ++ O := by simpa [List.append_assoc] using huv
  rcases List.append_eq_append_iff.mp huv2 with ⟨a1, ha, hTv⟩ | ⟨c1, _, hO⟩
  · cases a1 with
    | nil =>
      left
      exact ⟨[], v, by simpa using hTv⟩
    | cons x xs =>
      right
      refine ⟨u.length, ?_, ?_⟩
      · rw [ha]
        simp
      · have hdrop : r.drop u.length = x :: xs := by
          rw [ha, List.drop_left]
        have hpre : T <+: (x :: xs) ++ O := ⟨v, by simpa [List.append_assoc] using hTv⟩
        rcases prefix_append_cases hpre with h1 | h1
        · exact hdrop ▸ Or.inr h1
        · exact hdrop ▸ Or.inl h1
  · left
    exact ⟨c1, v, by simpa [List.append_assoc] using hO.symm⟩


theorem not_infix_nil_of_ne {t : List Char} (ht : t ≠ []) : ¬t <:+: [] := by
  intro h
  rcases h with ⟨u, v, huv⟩
  simp only [List.append_eq_nil] at huv
  exact ht huv.1.2

/-- If a nonempty proper suffix of the token is a prefix of the output
of the scan, it was already a prefix of the input: replacement blocks
cannot begin such a suffix (side condition `hB`), and kept characters
are copied verbatim. -/
theorem token_suffix_prefix (t r : List Char)
    (hB : ∀ k, k < t.length → 0 < k → ¬(t.drop k <+: r) ∧ ¬(r <+: t.drop k)) :
    ∀ fuel s k, s.length ≤ fuel → 0 < k → k < t.length →
      t.drop k <+: replaceAllF t r fuel s → t.drop k <+: s := by
  intro fuel
  induction fuel with
  | zero =>
    intro s k hs hk hkt hp
    match s, hs with
    | [], _ => exact hp
  | succ fuel ih =>
    intro s k hs hk hkt hp
    match s with
    | [] => exact hp
    | c :: cs =>
      by_cases hpre : t.isPrefixOf (c :: cs)
      · simp only [replaceAllF, if_pos hpre] at hp
        rcases prefix_append_cases hp with h | h
        · exact absurd h (hB k hkt hk).1
        · exact absurd h (hB k hkt hk).2
      · simp only [replaceAllF, if_neg hpre] at hp
        have hkd : t.drop k = t[k] :: t.drop (k + 1) := List.drop_eq_getElem_cons hkt
        rw [hkd] at hp
        rcases List.cons_prefix_cons.mp hp with ⟨hxc, hX⟩
        have hcs : cs.length ≤ fuel := by
          simp only [List.length_cons] at hs
          omega
        by_cases hlast : k + 1 < t.length
        · have h2 := ih cs (k + 1) hcs (by omega) hlast hX
          rw [hkd]
          exact List.cons_prefix_cons.mpr ⟨hxc, h2⟩
        · have hnil : t.drop (k + 1) = [] := List.drop_eq_nil_iff.mpr (by omega)
          rw [hkd, hnil]
          exact List.cons_prefix_cons.mpr ⟨hxc, List.nil_prefix⟩

/-- After a full `str.replace(t, r)` scan, the token `t` no longer
occurs, provided `t` cannot overlap the replacement `r` in either
direction (side conditions `hA`, `hB`, decided per concrete token). -/
theorem replaceAllF_no_residual (t r : List Char) (ht : t ≠ [])
    (hA : ∀ p, p < r.length → ¬(r.drop p <+: t) ∧ ¬(t <+: r.drop p))
    (hB : ∀ k, k < t.length → 0 < k → ¬(t.drop k <+: r) ∧ ¬(r <+: t.drop k)) :
    ∀ fuel s, s.length ≤ fuel → ¬t <:+: replaceAllF t r fuel s := by
  intro fuel
  induction fuel with
  | zero =>
    intro s hs hocc
    match s, hs with
    | [], _ => exact not_infix_nil_of_ne ht hocc
  | succ fuel ih =>
    intro s hs hocc
    match s with
    | [] => exact not_infix_nil_of_ne ht hocc
    | c :: cs =>
      have hcs : cs.length ≤ fuel := by
        simp only [List.length_cons] at hs
        omega
      by_cases hpre : t.isPrefixOf (c :: cs)
      · simp only [replaceAllF, if_pos hpre] at hocc
        rcases infix_append_cases hocc with h | ⟨p, hp, hcase⟩
        · refine ih _ ?_ h
          have := List.length_drop (t.length - 1) cs
          omega
        · rcases hcase with h | h
          · exact (hA p hp).1 h
          · exact (hA p hp).2 h
      · simp only [replaceAllF, if_neg hpre] at hocc
        rcases List.infix_cons_iff.mp hocc with h | h
        · match t, ht, hpre, h with
          | x :: T1, _, hpre, h =>
            rcases List.cons_prefix_cons.mp h with ⟨hxc, hT1⟩
            cases T1 with
            | nil =>
              exact hpre ( List.isPrefixOf_iff_prefix.mpr
                (List.cons_prefix_cons.mpr ⟨hxc, List.nil_prefix⟩))
            | cons y T2 =>
              have h2 := token_suffix_prefix (x :: y :: T2) r hB fuel cs 1
                hcs (by omega) (by simp) hT1
              exact hpre ( List.isPrefixOf_iff_prefix.mpr
                (List.cons_prefix_cons.mpr ⟨hxc, h2⟩))
        · exact ih cs hcs h

/-- `str.replace(t, r)` leaves no occurrence of `t`. -/
theorem replaceAll_no_residual (t r : List Char) (ht : t ≠ [])
    (hA : ∀ p, p < r.length → ¬(r.drop p <+: t) ∧ ¬(t <+: r.drop p))
    (hB : ∀ k, k < t.length → 0 < k → ¬(t.drop k <+: r) ∧ ¬(r <+: t.drop k))
    (s : List Char) : ¬t <:+: replaceAll t r s :=
  replaceAllF_no_residual t r ht hA hB s.length s le_rfl


/-! ## The concrete patch rules

`dest = Path('/usr/local')`, `package_name = 'discord'`,
`lib = 'lib/discord'`, `binary = 'bin/discord'` in `_do_install`. -/

/-- The apostrophe produced by Python `repr` on the path strings. -/
def squote : Char := Char.ofNat 39

/-- `str(dest / lib)`. -/
def destLib : List Char := ("/usr/local/lib/discord").data

/-- `repr(str(dest / lib))`. -/
def reprDestLib : List Char := squote :: (destLib ++ [squote])

/-- `str(dest / binary)`. -/
def destBinary : List Char := ("/usr/local/bin/discord").data

/-- Token replaced in `resources/app/app_bootstrap/buildInfo.js`. -/
def tokenResourcesPath : List Char := ("process.resourcesPath").data

/-- buildInfo.js rewrite:
`s.replace('process.resourcesPath', repr(str(dest / lib)))`. -/
def buildInfoTransform (s : List Char) : List Char :=
  replaceAll tokenResourcesPath reprDestLib s

/-- Index of the last occurrence of `c`. -/
def lastIdxOf (c : Char) : List Char → Option Nat
  | [] => none
  | x :: xs =>
    match lastIdxOf c xs with
    | some i => some (i + 1)
    | none => if x = c then some 0 else none

/-- Tail of a match attempt for `resourcesPath = .*;` at the current
position, where `consumed` characters were already matched: `.*` is
confined to the current line and backtracks to the last `;` there. -/
def tryAssignTail (consumed : Nat) (r : List Char) : Option Nat :=
  if ("resourcesPath = ").data.isPrefixOf r then
    match lastIdxOf ';' ((r.drop 16).takeWhile (fun ch => !(ch == '\n'))) with
    | some i => some (consumed + 16 + i + 1)
    | none => none
  else none

/-- Match attempt at one position for the paths.js removal pattern
`\s*(?:let )?resourcesPath = .*;`.  The maximal `\s*` run suffices: a
shorter run would leave a whitespace character where the literal `l`
of `let ` or `r` of `resourcesPath` is required. -/
def tryMatchAssign (s : List Char) : Option Nat :=
  let w := (s.takeWhile Char.isWhitespace).length
  let rest := s.drop w
  match (if ("let ").data.isPrefixOf rest then tryAssignTail (w + 4) (rest.drop 4) else none) with
  | some n => some n
  | none => tryAssignTail w rest

/-- `re.sub(r'\s*(?:let )?resourcesPath = .*;', '', s)`: scan left to
right, drop each leftmost match, continue after it.  Every match
consumes at least the 16 literal characters, so input length bounds
the recursion. -/
def subAssignF : Nat → List Char → List Char
  | _, [] => []
  | 0, s => s
  | fuel + 1, c :: cs =>
    match tryMatchAssign (c :: cs) with
    | some n => if n = 0 then c :: subAssignF fuel cs else subAssignF fuel ((c :: cs).drop n)
    | none => c :: subAssignF fuel cs

def subAssign (s : List Char) : List Char := subAssignF s.length s

/-- Token replaced in `resources/app/common/paths.js`. -/
def tokenReturnResources : List Char := ("return resourcesPath").data

/-- `f'return {str(dest / lib)!r}'`. -/
def replReturnResources : List Char := ("return ").data ++ reprDestLib

/-- common/paths.js rewrite: remove the `resourcesPath = ...;`
assignment, then
`s.replace('return resourcesPath', f'return {str(dest / lib)!r}')`. -/
def pathsTransform (s : List Char) : List Char :=
  replaceAll tokenReturnResources replReturnResources (subAssign s)

/-- `re.sub('(Tag).*', fr'\1<repl>', s)`: at each occurrence of the
literal `tag`, replace the rest of the line by `repl` and continue
scanning at the line end. -/
def subTagF (tag repl : List Char) : Nat → List Char → List Char
  | _, [] => []
  | 0, s => s
  | fuel + 1, c :: cs =>
    if tag.isPrefixOf (c :: cs) then
      tag ++ repl ++
        subTagF tag repl fuel (((c :: cs).drop tag.length).dropWhile (fun ch => !(ch == '\n')))
    else c :: subTagF tag repl fuel cs

def subTag (tag repl s : List Char) : List Char := subTagF tag repl s.length s

/-- app_bootstrap/autoStart/linux.js rewrite: the three `re.sub` line
rewrites for `Exec=`, `Name=`, `Icon=`, in source order. -/
def linuxTransform (s : List Char) : List Char :=
  subTag ("Icon=").data ("discord").data
    (subTag ("Name=").data ("discord").data
      (subTag ("Exec=").data destBinary s))

/-- Member paths (relative to the container root `resources/app`)
rewritten by the patch phase. -/
def patchPaths : List String :=
  ["app_bootstrap/buildInfo.js", "common/paths.js", "app_bootstrap/autoStart/linux.js"]

/-- Per-member transformation applied between `asar e` and `asar p`. -/
def patchFile (p : String) (s : List Char) : List Char :=
  if p = "app_bootstrap/buildInfo.js" then buildInfoTransform s
  else if p = "common/paths.js" then pathsTransform s
  else if p = "app_bootstrap/autoStart/linux.js" then linuxTransform s
  else s

/-- The unpack/rewrite/repack of `resources/app.asar` (lines 201-227),
on a container modelled as an association list path ↦ content.  The
three patched members are read with `Path.read_text`, which raises
(aborting the run) when a member is missing, modelled as `none`. -/
def patchContainer (files : List (String × List Char)) : Option (List (String × List Char)) :=
  if patchPaths.all (fun p => files.any (fun f => f.fst = p)) then
    some (files.map (fun f => (f.fst, patchFile f.fst f.snd)))
  else none


/-! ## The driver: `_do_install`, `_do_needs_update`

State, environment, observable events, and a state-trace-abort monad.
External tool invocations are opaque (spec: ProcessRunner); the
environment records which checked invocations fail.  `click.confirm`
answers come from the environment (spec: Confirmer). -/

/-- `_DEB_PACKAGE`. -/
def debPackage : String := "discord-electron"

/-- External subprocess invocations of the pipeline. -/
inductive Tool
  | wget
  | tar
  | asarExtract
  | asarPack
  | installBinary
  | installLibDir
  | installShareDirs
  | dpkgDeb
  | aptInstallTool (name : String)
  | npmInstallGlobal (name : String)
  | aptInstallPackage
deriving DecidableEq, Repr

/-- `click.confirm` prompts of `run.py`. -/
inductive Prompt
  | aptTool (name : String)
  | npmRequired (name : String)
  | npmUpdate (name : String)
  | buildPackage
  | deleteArchive
  | installPackage
deriving DecidableEq, Repr

/-- Observable actions, recorded in program order. -/
inductive Ev
  | print (line : String)
  | aptList (names : List String)
  | npmVersionQuery
  | npmViewLatest (name : String)
  | npmList (name : String)
  | headRequest
  | mkdirCache
  | tool (t : Tool)
  | writeDesktop
  | unlinkAppAsar
  | writeBuildInfo
  | writePaths
  | writeAutoStart
  | rmtreeApp
  | rmtreeBuild
  | mkdirBuild
  | mkdirDeb
  | copyDebianTree
  | writeControl
  | writeLauncher
  | copyResources
  | copyIcon
  | copyDesktopEntry
  | rmtreeSrc
  | unlinkArchive
  | rmdirCache
  | inputWait
deriving DecidableEq, Repr

/-- Filesystem / installed-package state the script reads or writes. -/
structure St where
  installedVersion : Option String
  cacheDir : Bool
  cached : List String
  srcTree : Bool
  appDir : Bool
  buildDir : Bool
deriving DecidableEq, Repr

/-- Read-only run environment: upstream redirect, tool presence and
versions, confirmer answers, and which subprocess invocations fail. -/
structure Env where
  redirectUrl : String
  aptTools : String → Option String
  npmPresent : Bool
  npmVersion : String
  npmLatest : String → String
  npmGlobal : String → Option String
  confirm : Prompt → Bool
  fails : Tool → Bool

/-- State-trace-abort monad: Python control flow with `exit(c)` and
uncaught subprocess errors in the `Except` channel. -/
def M (α : Type) : Type := St → List Ev × St × Except Nat α

def M.pure {α : Type} (a : α) : M α := fun s => ([], s, Except.ok a)

def M.bind {α β : Type} (m : M α) (f : α → M β) : M β := fun s =>
  match m s with
  | (t, s1, Except.error c) => (t, s1, Except.error c)
  | (t, s1, Except.ok a) =>
    match f a s1 with
    | (t2, s2, res) => (t ++ t2, s2, res)

instance : Monad M where
  pure := M.pure
  bind := M.bind

def emit (e : Ev) : M Unit := fun s => ([e], s, Except.ok ())

/-- Python `exit(c)` / fatal uncaught error, with process status `c`. -/
def halt {α : Type} (c : Nat) : M α := fun s => ([], s, Except.error c)

def getSt : M St := fun s => ([], s, Except.ok s)

def modSt (f : St → St) : M Unit := fun s => ([], f s, Except.ok ())

/-- A `run(args, check=True)` call: failure raises
`CalledProcessError`, uncaught, so the interpreter exits with 1. -/
def runChecked (env : Env) (t : Tool) : M Unit := do
  emit (Ev.tool t)
  if env.fails t then halt 1 else pure ()

/-- `npm_get_latest_version(name)` (read-only query). -/
def npm_get_latest_version (env : Env) (name : String) : M String := do
  emit (Ev.npmViewLatest name)
  pure (env.npmLatest name)

/-- `npm_update_from_version(name, installed_version, latest_version)`. -/
def npm_update_from_version (env : Env) (name installedV : String)
    (latestV : Option String) : M Unit := do
  let lv ← match latestV with
    | some l => pure l
    | none => npm_get_latest_version env name
  if installedV = lv then pure ()
  else if env.confirm (Prompt.npmUpdate name) then
    runChecked env (Tool.npmInstallGlobal name)
  else pure ()

/-- `npm_install(name)` (interactive path, no explicit version).  The
`dependencies` lookup of the `npm -g --json list` output is modelled
by `env.npmGlobal`; a declined required install is `exit()`; an
accepted one recurses into the checked global install. -/
def npm_install (env : Env) (name : String) : M Unit := do
  let lv ← npm_get_latest_version env name
  emit (Ev.npmList name)
  match env.npmGlobal name with
  | none =>
    if env.confirm (Prompt.npmRequired name) then
      runChecked env (Tool.npmInstallGlobal name)
    else halt 0
  | some iv => do
    emit (Ev.print (("npm - ") ++ name ++ (" found: v") ++ iv))
    npm_update_from_version env name iv (some lv)

/-- `check_apt()` per-package body: found tools are reported; missing
tools gate on a confirm (declined: `exit()`; accepted: unchecked
`sudo apt install`). -/
def check_apt_tool (env : Env) (name : String) : M Unit :=
  match env.aptTools name with
  | some v => emit (Ev.print (("apt - ") ++ name ++ (" found: v") ++ v))
  | none =>
    if env.confirm (Prompt.aptTool name) then
      emit (Ev.tool (Tool.aptInstallTool name))
    else halt 0

/-- `check_apt()`. -/
def check_apt (env : Env) : M Unit := do
  emit (Ev.aptList ["npm", "dpkg"])
  check_apt_tool env ("npm")
  check_apt_tool env ("dpkg")

/-- `check_npm()`.  A missing `npm` binary raises `FileNotFoundError`
before any subprocess runs: report and `exit()`. -/
def check_npm (env : Env) : M Unit := do
  (if env.npmPresent then pure ()
  else do
    emit (Ev.print ("npm not found!"))
    halt 0)
  emit Ev.npmVersionQuery
  emit (Ev.print (("npm found: v") ++ env.npmVersion))
  npm_update_from_version env ("npm") env.npmVersion none
  npm_install env ("electron")
  npm_install env ("@electron/asar")

/-- `get_version_info()`: the HEAD request, then the fullmatch; on
failure the source prints the literal `'Invalid response URL: {url}'`
(not an f-string) and calls `exit(-1)` (process status 255). -/
def get_version_info (env : Env) : M VersionInfo := do
  emit Ev.headRequest
  match parseVersionUrl env.redirectUrl with
  | some vi => pure vi
  | none => do
    emit (Ev.print ("Invalid response URL: \x7burl\x7d"))
    halt 255

/-- `apt_get_installed_version(_DEB_PACKAGE)` as used by the driver:
an `apt list discord-electron --installed` query. -/
def apt_get_installed_version : M (Option String) := do
  emit (Ev.aptList [debPackage])
  let s ← getSt
  pure s.installedVersion

/-- `_do_needs_update()`. -/
def do_needs_update (env : Env) : M Unit := do
  let vi ← get_version_info env
  let installed ← apt_get_installed_version
  let needs : Bool := decide (installed ≠ some vi.version)
  emit (Ev.print vi.url)
  emit (Ev.print (("Update needed: ") ++ (if needs then ("True") else ("False"))))
  halt (if needs then 1 else 0)

/-- Lines 165-178 of `_do_install`: the archive-cache block (spec:
`ArchiveCache.ensure_local`).  Returns `must_download`. -/
def ensure_local (env : Env) (vi : VersionInfo) : M Bool := do
  let s0 ← getSt
  if s0.cacheDir then pure ()
  else do
    emit Ev.mkdirCache
    modSt (fun s => { s with cacheDir := true })
  let s1 ← getSt
  let must : Bool := !s1.cached.contains vi.archive
  if must then do
    emit (Ev.print ("Downloading archive..."))
    emit (Ev.tool Tool.wget)
    if env.fails Tool.wget then halt 1
    else modSt (fun s => { s with cached := vi.archive :: s.cached })
  else pure ()
  pure must

/-- Lines 180-181: `tar -xzf`, producing the `Discord/` tree. -/
def decompress_archive (env : Env) : M Unit := do
  emit (Ev.print ("Decompressing archive..."))
  emit (Ev.tool Tool.tar)
  if env.fails Tool.tar then halt 1
  else modSt (fun s => { s with srcTree := true })

/-- Lines 183-227: the patch phase (desktop entry rewrite, `asar e`,
the three member rewrites whose content-level semantics is
`patchFile`, `asar p`, removal of the working directory). -/
def patch_sources (env : Env) : M Unit := do
  emit (Ev.print ("Patching sources..."))
  emit Ev.writeDesktop
  emit (Ev.tool Tool.asarExtract)
  if env.fails Tool.asarExtract then halt 1
  else modSt (fun s => { s with appDir := true })
  emit Ev.unlinkAppAsar
  emit Ev.writeBuildInfo
  emit Ev.writePaths
  emit Ev.writeAutoStart
  emit (Ev.tool Tool.asarPack)
  if env.fails Tool.asarPack then halt 1 else pure ()
  emit Ev.rmtreeApp
  modSt (fun s => { s with appDir := false })

/-- Lines 229-284: staging-tree assembly (spec: PackageAssembler),
ending with `rmtree(src)`. -/
def assemble_tree (env : Env) : M Unit := do
  emit (Ev.print ("Creating installation files..."))
  let s0 ← getSt
  if s0.buildDir then emit Ev.rmtreeBuild else pure ()
  emit Ev.mkdirBuild
  modSt (fun s => { s with buildDir := true })
  emit Ev.mkdirDeb
  emit Ev.copyDebianTree
  emit Ev.writeControl
  emit Ev.writeLauncher
  runChecked env Tool.installBinary
  runChecked env Tool.installLibDir
  emit Ev.copyResources
  runChecked env Tool.installShareDirs
  emit Ev.copyIcon
  emit Ev.copyDesktopEntry
  emit Ev.rmtreeSrc
  modSt (fun s => { s with srcTree := false, appDir := false })

/-- Lines 286-289: optional deletion of a freshly downloaded archive,
pruning the cache directory when it empties. -/
def delete_archive_step (env : Env) (full mustDownload : Bool) (vi : VersionInfo) : M Unit :=
  if full && mustDownload && env.confirm Prompt.deleteArchive then do
    emit Ev.unlinkArchive
    modSt (fun s => { s with cached := s.cached.erase vi.archive })
    let s1 ← getSt
    if s1.cached.isEmpty then do
      emit Ev.rmdirCache
      modSt (fun s => { s with cacheDir := false })
    else pure ()
  else pure ()

/-- Lines 291-301: `dpkg-deb --build`, the install gate, the final
`sudo apt install --reinstall` (failure not checked), epilogue. -/
def final_install (env : Env) (full : Bool) (version : String) : M Unit := do
  emit (Ev.print ("Creating Debian package..."))
  runChecked env Tool.dpkgDeb
  if !full || env.confirm Prompt.installPackage then do
    emit (Ev.tool Tool.aptInstallPackage)
    if env.fails Tool.aptInstallPackage then pure ()
    else modSt (fun s => { s with installedVersion := some version })
  else pure ()
  if full then do
    emit (Ev.print ("Finished! Press any key to exit."))
    emit Ev.inputWait
  else pure ()

/-- The environment-bootstrap phase of `_do_install` (lines 146-148). -/
def bootstrap (env : Env) : M Unit := do
  check_apt env
  check_npm env

/-- Lines 150-301 of `_do_install`: resolution, version comparison,
the build gate, and the fetch/patch/assemble/install pipeline. -/
def install_core (full : Bool) (env : Env) : M Unit := do
  let vi ← get_version_info env
  let installed ← apt_get_installed_version
  let already : Bool := decide (installed = some vi.version)
  (if already then
    emit (Ev.print (("* ") ++ debPackage ++ (" v") ++ vi.version ++ (" is already installed.")))
  else
    emit (Ev.print (("Installing ") ++ debPackage ++ (" v") ++ vi.version ++ ("..."))))
  (if full && !env.confirm Prompt.buildPackage then halt 0 else pure ())
  let mustDownload ← ensure_local env vi
  decompress_archive env
  patch_sources env
  assemble_tree env
  delete_archive_step env full mustDownload vi
  final_install env full vi.version

/-- `_do_install(full)` where `full = not args.silent`. -/
def do_install (full : Bool) (env : Env) : M Unit := do
  (if full then bootstrap env else pure ())
  install_core full env

/-- Result of one process run. -/
structure Outcome where
  trace : List Ev
  state : St
  exitCode : Nat
deriving DecidableEq, Repr

/-- Run a driver to completion; a normal return exits with status 0
(`main` falls off the end of the script). -/
def runM (m : M Unit) (s : St) : Outcome :=
  match m s with
  | (t, s1, Except.ok _) => ⟨t, s1, 0⟩
  | (t, s1, Except.error c) => ⟨t, s1, c⟩

/-- CLI run of the default action (`full = not args.silent`). -/
def runInstall (full : Bool) (env : Env) (s : St) : Outcome :=
  runM (do_install full env) s

/-- CLI run of the `needs-update` action. -/
def runNeedsUpdate (env : Env) (s : St) : Outcome :=
  runM (do_needs_update env) s

/-- Read-only observations: queries and prints. -/
def Ev.isObservation : Ev → Bool
  | Ev.print _ => true
  | Ev.aptList _ => true
  | Ev.npmVersionQuery => true
  | Ev.npmViewLatest _ => true
  | Ev.npmList _ => true
  | Ev.headRequest => true
  | _ => false

/-- Mutating actions: everything that writes the filesystem or the
package databases (queries, prints and the final keypress wait are
not mutations). -/
def Ev.isMutation : Ev → Bool
  | Ev.inputWait => false
  | e => !e.isObservation

/-- Pipeline actions: the effectful steps of the update pipeline
proper, excluding read-only observations, the bootstrap-phase tool
installations and the interactive epilogue. -/
def Ev.isPipelineAction : Ev → Bool
  | Ev.tool (Tool.aptInstallTool _) => false
  | Ev.tool (Tool.npmInstallGlobal _) => false
  | Ev.inputWait => false
  | e => e.isMutation


/-! ## Unfolding lemmas for the monad -/

@[simp] theorem mBind_def {α β : Type} :
    (Bind.bind : M α → (α → M β) → M β) = M.bind := rfl

@[simp] theorem mPure_def {α : Type} : (Pure.pure : α → M α) = M.pure := rfl

/-- Claim C2: the `needs-update` action performs only version
resolution and the installed-version comparison, prints the resolved
URL and the decision, and exits 1 when the installed version differs
from the resolved one (including when nothing is installed) and 0 when
they are equal, with no other side effects (the trace is exactly the
two read-only queries and the two prints, and the state is unchanged). -/
theorem C2_needs_update_exact (env : Env) (s : St) (vi : VersionInfo)
    (h : parseVersionUrl env.redirectUrl = some vi) :
    runNeedsUpdate env s =
      ⟨[Ev.headRequest, Ev.aptList [debPackage], Ev.print vi.url,
        Ev.print (("Update needed: ") ++
          (if s.installedVersion = some vi.version then ("False") else ("True")))],
        s, if s.installedVersion = some vi.version then 0 else 1⟩ := by
  by_cases hi : s.installedVersion = some vi.version <;>
    simp [runNeedsUpdate, runM, do_needs_update, get_version_info,
      apt_get_installed_version, M.bind, M.pure, emit, halt, getSt, h, hi]


/-! ## Concrete data for witnesses -/

/-- A benign concrete environment: resolvable upstream 0.0.51, tools
present, npm packages present and current, every prompt accepted,
no failing tool. -/
def baseEnv : Env where
  redirectUrl := "https://dl.discordapp.net/apps/linux/0.0.51/discord-0.0.51.tar.gz"
  aptTools := fun nm => if nm = "npm" then some ("8.0") else if nm = "dpkg" then some ("1.21") else none
  npmPresent := true
  npmVersion := "8.0"
  npmLatest := fun nm => if nm = "npm" then ("8.0") else if nm = "electron" then ("25.0") else ("3.2")
  npmGlobal := fun nm => if nm = "electron" then some ("25.0") else if nm = "@electron/asar" then some ("3.2") else none
  confirm := fun _ => true
  fails := fun _ => false

/-- The `VersionInfo` that `baseEnv.redirectUrl` resolves to. -/
def wVi : VersionInfo where
  url := "https://dl.discordapp.net/apps/linux/0.0.51/discord-0.0.51.tar.gz"
  archive := "discord-0.0.51.tar.gz"
  name := "discord"
  version := "0.0.51"

/-- Nothing installed, empty cache, clean working tree. -/
def cleanSt : St where
  installedVersion := none
  cacheDir := false
  cached := []
  srcTree := false
  appDir := false
  buildDir := false

/-- Witness for C2: at `baseEnv` with nothing installed, the action is
the exact four-event read-only trace and exits 1. -/
theorem C2_needs_update_exact_witness :
    parseVersionUrl baseEnv.redirectUrl = some wVi ∧
    runNeedsUpdate baseEnv cleanSt =
      ⟨[Ev.headRequest, Ev.aptList [debPackage], Ev.print wVi.url,
        Ev.print (("Update needed: ") ++
          (if cleanSt.installedVersion = some wVi.version then ("False") else ("True")))],
        cleanSt, if cleanSt.installedVersion = some wVi.version then 0 else 1⟩ :=
  ⟨by decide, C2_needs_update_exact baseEnv cleanSt wVi (by decide)⟩

/-- Claim C3, counterexample: `x/a/b-1.2.3.tar.gz` has the claimed
form `.../<name>-<maj>.<min>.<patch>.tar.gz` with prefix `x`, name
`a/b` (non-empty and whitespace-free) and version `1.2.3`, yet
resolution extracts the name `b`, not `a/b`: the greedy `.*/` of the
pattern splits at the *last* slash, which falls inside a
slash-containing name. -/
theorem C3_counterexample :
    ("x/a/b-1.2.3.tar.gz").data
        = ("x").data ++ '/' :: (("a/b").data ++ '-' :: (("1.2.3").data ++ tarGz)) ∧
    ("a/b").data ≠ [] ∧ noWs (("a/b").data) = true ∧
    ("1.2.3").data = ("1").data ++ '.' :: (("2").data ++ '.' :: ("3").data) ∧
    isDigits (("1").data) = true ∧ isDigits (("2").data) = true ∧
    isDigits (("3").data) = true ∧
    Option.map VersionInfo.name (parseVersionUrl ("x/a/b-1.2.3.tar.gz")) = some ("b") ∧
    some ("b") ≠ some ("a/b") := by
  decide

/-- Claim C3 (amended): for every redirect URL
`<prefix>/<name>-<maj>.<min>.<patch>.tar.gz` whose name is non-empty,
whitespace-free and additionally slash-free, and whose prefix contains
no newline, resolution returns a `VersionInfo` carrying exactly that
name, the dotted version string, and the archive filename
`<name>-<maj>.<min>.<patch>.tar.gz`. -/
theorem C3_resolution_extracts (P n a b c : List Char)
    (hP : '\n' ∉ P) (hn : n ≠ []) (hws : noWs n = true) (hslash : '/' ∉ n)
    (ha : isDigits a = true) (hb : isDigits b = true) (hc : isDigits c = true) :
    parseVersionUrl ⟨P ++ '/' :: (n ++ '-' :: ((a ++ '.' :: (b ++ '.' :: c)) ++ tarGz))⟩
      = some ⟨⟨P ++ '/' :: (n ++ '-' :: ((a ++ '.' :: (b ++ '.' :: c)) ++ tarGz))⟩,
              ⟨n ++ '-' :: ((a ++ '.' :: (b ++ '.' :: c)) ++ tarGz)⟩,
              ⟨n⟩, ⟨a ++ '.' :: (b ++ '.' :: c)⟩⟩ := by
  unfold parseVersionUrl
  rw [show (String.mk (P ++ '/' :: (n ++ '-' :: ((a ++ '.' :: (b ++ '.' :: c)) ++ tarGz)))).data
      = P ++ '/' :: (n ++ '-' :: ((a ++ '.' :: (b ++ '.' :: c)) ++ tarGz)) from rfl]
  rw [urlMatch_wellformed P n (a ++ '.' :: (b ++ '.' :: c)) hP hn hws hslash
    (isVersion_of_groups ha hb hc) (version_group_no_dash ha hb hc)
    (version_group_no_slash ha hb hc)]

/-- Witness for the amended C3 at the real vendor URL shape. -/
theorem C3_resolution_extracts_witness :
    '\n' ∉ ("https://dl.discordapp.net/apps/linux/0.0.51").data ∧
    ("discord").data ≠ [] ∧ noWs (("discord").data) = true ∧
    '/' ∉ ("discord").data ∧
    isDigits (("0").data) = true ∧ isDigits (("51").data) = true ∧
    parseVersionUrl
      ⟨("https://dl.discordapp.net/apps/linux/0.0.51").data ++ '/' ::
        (("discord").data ++ '-' ::
          ((("0").data ++ '.' :: (("0").data ++ '.' :: ("51").data)) ++ tarGz))⟩
      = some ⟨⟨("https://dl.discordapp.net/apps/linux/0.0.51").data ++ '/' ::
                (("discord").data ++ '-' ::
                  ((("0").data ++ '.' :: (("0").data ++ '.' :: ("51").data)) ++ tarGz))⟩,
              ⟨("discord").data ++ '-' ::
                ((("0").data ++ '.' :: (("0").data ++ '.' :: ("51").data)) ++ tarGz)⟩,
              ⟨("discord").data⟩, ⟨("0").data ++ '.' :: (("0").data ++ '.' :: ("51").data)⟩⟩ :=
  ⟨by decide, by decide, by decide, by decide, by decide, by decide,
    C3_resolution_extracts (("https://dl.discordapp.net/apps/linux/0.0.51").data)
      (("discord").data) (("0").data) (("0").data) (("51").data)
      (by decide) (by decide) (by decide) (by decide) (by decide) (by decide) (by decide)⟩


/-- Claim C6: patching and repacking the resource container preserves
the member list exactly; members outside the three PatchSpec paths
keep their contents byte-identical; each PatchSpec member holds
exactly the substituted content, and in the two members rewritten by
literal-token substitution no occurrence of the original token
survives. -/
theorem C6_patch_frame (files : List (String × List Char))
    (h1 : files.any (fun f => f.fst = "app_bootstrap/buildInfo.js") = true)
    (h2 : files.any (fun f => f.fst = "common/paths.js") = true)
    (h3 : files.any (fun f => f.fst = "app_bootstrap/autoStart/linux.js") = true) :
    ∃ out, patchContainer files = some out ∧
      out.map Prod.fst = files.map Prod.fst ∧
      (∀ pc ∈ files, pc.fst ∉ patchPaths → pc ∈ out) ∧
      (∀ pc ∈ files, pc.fst = "app_bootstrap/buildInfo.js" →
        (pc.fst, buildInfoTransform pc.snd) ∈ out ∧
        ¬tokenResourcesPath <:+: buildInfoTransform pc.snd) ∧
      (∀ pc ∈ files, pc.fst = "common/paths.js" →
        (pc.fst, pathsTransform pc.snd) ∈ out ∧
        ¬tokenReturnResources <:+: pathsTransform pc.snd) ∧
      (∀ pc ∈ files, pc.fst = "app_bootstrap/autoStart/linux.js" →
        (pc.fst, linuxTransform pc.snd) ∈ out) := by
  refine ⟨files.map (fun f => (f.fst, patchFile f.fst f.snd)), ?_, ?_, ?_, ?_, ?_, ?_⟩
  · unfold patchContainer
    rw [if_pos (by simp [patchPaths, h1, h2, h3])]
  · simp
  · intro pc hmem hnot
    simp only [patchPaths, List.mem_cons, List.not_mem_nil, or_false, not_or] at hnot
    refine List.mem_map.mpr ⟨pc, hmem, ?_⟩
    unfold patchFile
    rw [if_neg hnot.1, if_neg hnot.2.1, if_neg hnot.2.2]
  · intro pc hmem hp
    constructor
    · refine List.mem_map.mpr ⟨pc, hmem, ?_⟩
      rw [hp]
      simp [patchFile]
    · exact replaceAll_no_residual _ _ (by decide) (by decide) (by decide) _
  · intro pc hmem hp
    constructor
    · refine List.mem_map.mpr ⟨pc, hmem, ?_⟩
      rw [hp]
      simp [patchFile]
    · exact replaceAll_no_residual _ _ (by decide) (by decide) (by decide) _
  · intro pc hmem hp
    refine List.mem_map.mpr ⟨pc, hmem, ?_⟩
    rw [hp]
    simp [patchFile]

/-- A concrete four-member container (the three patched members plus
one untouched member). -/
def wFiles : List (String × List Char) :=
  [("app_bootstrap/buildInfo.js", ("x = process.resourcesPath;").data),
   ("common/paths.js", ("  resourcesPath = q();\nreturn resourcesPath").data),
   ("app_bootstrap/autoStart/linux.js", ("Exec=/old %u\nName=Old\nIcon=old\n").data),
   ("common/util.js", ("untouched").data)]

/-- Witness for C6 at the concrete container `wFiles`. -/
theorem C6_patch_frame_witness :
    wFiles.any (fun f => f.fst = "app_bootstrap/buildInfo.js") = true ∧
    wFiles.any (fun f => f.fst = "common/paths.js") = true ∧
    wFiles.any (fun f => f.fst = "app_bootstrap/autoStart/linux.js") = true ∧
    (∃ out, patchContainer wFiles = some out ∧
      out.map Prod.fst = wFiles.map Prod.fst ∧
      (∀ pc ∈ wFiles, pc.fst ∉ patchPaths → pc ∈ out) ∧
      (∀ pc ∈ wFiles, pc.fst = "app_bootstrap/buildInfo.js" →
        (pc.fst, buildInfoTransform pc.snd) ∈ out ∧
        ¬tokenResourcesPath <:+: buildInfoTransform pc.snd) ∧
      (∀ pc ∈ wFiles, pc.fst = "common/paths.js" →
        (pc.fst, pathsTransform pc.snd) ∈ out ∧
        ¬tokenReturnResources <:+: pathsTransform pc.snd) ∧
      (∀ pc ∈ wFiles, pc.fst = "app_bootstrap/autoStart/linux.js" →
        (pc.fst, linuxTransform pc.snd) ∈ out)) :=
  ⟨by decide, by decide, by decide,
    C6_patch_frame wFiles (by decide) (by decide) (by decide)⟩


/-- Claim C4: when the redirect URL does not match the versioned
archive shape, resolution fails fatally: the `needs-update` action and
the silent default action terminate with status 255 immediately after
the HEAD request and the diagnostic print, with the state unchanged
and no filesystem mutation; the interactive default action does the
same once its read-only bootstrap phase (tools present, updates
declined) has completed. -/
theorem C4_resolution_failure (env : Env) (s : St)
    (h : parseVersionUrl env.redirectUrl = none) :
    runNeedsUpdate env s =
        ⟨[Ev.headRequest, Ev.print ("Invalid response URL: \x7burl\x7d")], s, 255⟩ ∧
    runInstall false env s =
        ⟨[Ev.headRequest, Ev.print ("Invalid response URL: \x7burl\x7d")], s, 255⟩ ∧
    (∀ v1 v2 ve va,
      env.aptTools ("npm") = some v1 → env.aptTools ("dpkg") = some v2 →
      env.npmPresent = true →
      (∀ nm, env.confirm (Prompt.npmUpdate nm) = false) →
      env.npmGlobal ("electron") = some ve →
      env.npmGlobal ("@electron/asar") = some va →
      (runInstall true env s).exitCode = 255 ∧
      (runInstall true env s).state = s ∧
      (runInstall true env s).trace.all (fun e => !e.isMutation) = true) := by
  refine ⟨?_, ?_, ?_⟩
  · simp [runNeedsUpdate, runM, do_needs_update, get_version_info,
      M.bind, M.pure, emit, halt, h]
  · simp [runInstall, runM, do_install, bootstrap, install_core, get_version_info,
      M.bind, M.pure, emit, halt, h]
  · intro v1 v2 ve va h1 h2 h3 h4 h5 h6
    simp [runInstall, runM, do_install, bootstrap, install_core,
      check_apt, check_apt_tool, check_npm,
      npm_install, npm_update_from_version, npm_get_latest_version, runChecked,
      get_version_info, M.bind, M.pure, emit, halt, getSt, modSt,
      h, h1, h2, h3, h4, h5, h6, Ev.isMutation, Ev.isObservation]

/-- Environment whose redirect URL does not match the pattern. -/
def badUrlEnv : Env := { baseEnv with redirectUrl := "https://discord.com/api/download" }

/-- Witness for C4 at `badUrlEnv`. -/
theorem C4_resolution_failure_witness :
    parseVersionUrl badUrlEnv.redirectUrl = none ∧
    (runNeedsUpdate badUrlEnv cleanSt =
        ⟨[Ev.headRequest, Ev.print ("Invalid response URL: \x7burl\x7d")], cleanSt, 255⟩ ∧
      runInstall false badUrlEnv cleanSt =
        ⟨[Ev.headRequest, Ev.print ("Invalid response URL: \x7burl\x7d")], cleanSt, 255⟩ ∧
      (∀ v1 v2 ve va,
        badUrlEnv.aptTools ("npm") = some v1 → badUrlEnv.aptTools ("dpkg") = some v2 →
        badUrlEnv.npmPresent = true →
        (∀ nm, badUrlEnv.confirm (Prompt.npmUpdate nm) = false) →
        badUrlEnv.npmGlobal ("electron") = some ve →
        badUrlEnv.npmGlobal ("@electron/asar") = some va →
        (runInstall true badUrlEnv cleanSt).exitCode = 255 ∧
        (runInstall true badUrlEnv cleanSt).state = cleanSt ∧
        (runInstall true badUrlEnv cleanSt).trace.all (fun e => !e.isMutation) = true)) :=
  ⟨by decide, C4_resolution_failure badUrlEnv cleanSt (by decide)⟩

/-- Claim C1: a full (interactive) run in which the installed version
equals the resolved version and the operator does not force a rebuild
(the build-package confirmation, whose default is No in this case, is
answered No) exits with status 0, leaves the state untouched, reports
"already installed", and its whole trace is read-only observations: no
download, no patch, no package-manager install.  Hypotheses keep the
preceding bootstrap phase read-only: tools present, npm packages
present, optional npm updates declined. -/
theorem C1_short_circuit (env : Env) (s : St) (vi : VersionInfo)
    (v1 v2 ve va : String)
    (hurl : parseVersionUrl env.redirectUrl = some vi)
    (hinst : s.installedVersion = some vi.version)
    (hgate : env.confirm Prompt.buildPackage = false)
    (h1 : env.aptTools ("npm") = some v1) (h2 : env.aptTools ("dpkg") = some v2)
    (h3 : env.npmPresent = true)
    (h4 : ∀ nm, env.confirm (Prompt.npmUpdate nm) = false)
    (h5 : env.npmGlobal ("electron") = some ve)
    (h6 : env.npmGlobal ("@electron/asar") = some va) :
    (runInstall true env s).exitCode = 0 ∧
    (runInstall true env s).state = s ∧
    (runInstall true env s).trace.all Ev.isObservation = true ∧
    Ev.print (("* ") ++ debPackage ++ (" v") ++ vi.version ++ (" is already installed."))
      ∈ (runInstall true env s).trace := by
  simp [runInstall, runM, do_install, bootstrap, install_core,
    check_apt, check_apt_tool, check_npm,
    npm_install, npm_update_from_version, npm_get_latest_version, runChecked,
    get_version_info, apt_get_installed_version,
    M.bind, M.pure, emit, halt, getSt, modSt,
    hurl, hinst, hgate, h1, h2, h3, h4, h5, h6, Ev.isObservation]

/-- All prompts declined. -/
def noConfirmEnv : Env := { baseEnv with confirm := fun _ => false }

/-- 0.0.51 already installed, clean tree. -/
def installedSt : St := { cleanSt with installedVersion := some ("0.0.51") }

/-- Witness for C1 at `noConfirmEnv` / `installedSt`. -/
theorem C1_short_circuit_witness :
    parseVersionUrl noConfirmEnv.redirectUrl = some wVi ∧
    installedSt.installedVersion = some wVi.version ∧
    noConfirmEnv.confirm Prompt.buildPackage = false ∧
    ((runInstall true noConfirmEnv installedSt).exitCode = 0 ∧
      (runInstall true noConfirmEnv installedSt).state = installedSt ∧
      (runInstall true noConfirmEnv installedSt).trace.all Ev.isObservation = true ∧
      Ev.print (("* ") ++ debPackage ++ (" v") ++ wVi.version ++ (" is already installed."))
        ∈ (runInstall true noConfirmEnv installedSt).trace) :=
  ⟨by decide, by decide, rfl,
    C1_short_circuit noConfirmEnv installedSt wVi ("8.0") ("1.21") ("25.0") ("3.2")
      (by decide) (by decide) rfl (by decide) (by decide) rfl (fun nm => rfl)
      (by decide) (by decide)⟩


/-! ### Per-segment execution lemmas -/

/-- Events other than the archive deletion and the cache-directory
removal. -/
def Ev.notCacheDelete : Ev → Bool
  | Ev.unlinkArchive => false
  | Ev.rmdirCache => false
  | _ => true

def Ev.isPrint : Ev → Bool
  | Ev.print _ => true
  | _ => false

theorem obs_notCacheDelete {e : Ev} (h : e.isObservation = true) :
    e.notCacheDelete = true := by
  cases e <;> simp_all [Ev.isObservation, Ev.notCacheDelete]

theorem get_version_info_run (env : Env) (s : St) (t : List Ev) (s1 : St)
    (res : Except Nat VersionInfo) (h : (get_version_info env) s = (t, s1, res)) :
    s1 = s ∧ t.all Ev.isObservation = true ∧
    (∀ vi, res = Except.ok vi → parseVersionUrl env.redirectUrl = some vi) := by
  unfold get_version_info at h
  cases hp : parseVersionUrl env.redirectUrl <;>
    simp [M.bind, M.pure, emit, halt, hp, Prod.mk.injEq] at h <;>
    obtain ⟨rfl, rfl, rfl⟩ := h <;>
    simp [Ev.isObservation]

theorem apt_get_installed_version_run (s : St) :
    apt_get_installed_version s
      = ([Ev.aptList [debPackage]], s, Except.ok s.installedVersion) := rfl

theorem ensure_local_run (env : Env) (vi : VersionInfo) (s : St) (t : List Ev) (s1 : St)
    (res : Except Nat Bool) (h : (ensure_local env vi) s = (t, s1, res)) :
    t.all (fun e => e.isPrint || e == Ev.mkdirCache || e == Ev.tool Tool.wget) = true ∧
    ((Ev.tool Tool.wget ∈ t) ↔ vi.archive ∉ s.cached) ∧
    ((Ev.mkdirCache ∈ t) ↔ s.cacheDir = false) ∧
    s1.srcTree = s.srcTree ∧ s1.appDir = s.appDir ∧
    s1.installedVersion = s.installedVersion ∧ s1.buildDir = s.buildDir ∧
    s1.cacheDir = true ∧
    (res = Except.ok true → vi.archive ∉ s.cached ∧ s1.cached = vi.archive :: s.cached) ∧
    (res = Except.ok false → vi.archive ∈ s.cached ∧ s1.cached = s.cached) ∧
    (∀ c, res = Except.error c → s1.cached = s.cached) ∧
    (vi.archive ∈ s.cached → res = Except.ok false) ∧
    (vi.archive ∉ s.cached → env.fails Tool.wget = false → res = Except.ok true) := by
  unfold ensure_local at h
  by_cases hc : s.cacheDir <;> by_cases hm : vi.archive ∈ s.cached <;>
    by_cases hf : env.fails Tool.wget <;>
    simp [M.bind, M.pure, emit, halt, getSt, modSt, hc, hm, hf, Prod.mk.injEq] at h <;>
    obtain ⟨rfl, rfl, rfl⟩ := h <;>
    simp [hc, hm, hf, Ev.isPrint]


theorem decompress_archive_run (env : Env) (s : St) (t : List Ev) (s1 : St)
    (res : Except Nat Unit) (h : (decompress_archive env) s = (t, s1, res)) :
    t = [Ev.print ("Decompressing archive..."), Ev.tool Tool.tar] ∧
    s1.cached = s.cached ∧ s1.cacheDir = s.cacheDir ∧
    s1.installedVersion = s.installedVersion ∧ s1.appDir = s.appDir ∧
    s1.buildDir = s.buildDir ∧
    (res = Except.ok () → s1.srcTree = true) ∧
    (∀ c, res = Except.error c → s1.srcTree = s.srcTree) ∧
    (env.fails Tool.tar = false → res = Except.ok ()) := by
  unfold decompress_archive at h
  by_cases hf : env.fails Tool.tar <;>
    simp [M.bind, M.pure, emit, halt, modSt, hf, Prod.mk.injEq] at h <;>
    obtain ⟨rfl, rfl, rfl⟩ := h <;> simp [hf]

theorem patch_sources_run (env : Env) (s : St) (t : List Ev) (s1 : St)
    (res : Except Nat Unit) (h : (patch_sources env) s = (t, s1, res)) :
    t.all Ev.notCacheDelete = true ∧
    s1.cached = s.cached ∧ s1.cacheDir = s.cacheDir ∧
    s1.installedVersion = s.installedVersion ∧ s1.srcTree = s.srcTree ∧
    s1.buildDir = s.buildDir ∧
    (res = Except.ok () → s1.appDir = false) ∧
    (env.fails Tool.asarExtract = false → env.fails Tool.asarPack = false →
      res = Except.ok ()) := by
  unfold patch_sources at h
  by_cases h1 : env.fails Tool.asarExtract <;> by_cases h2 : env.fails Tool.asarPack <;>
    simp [M.bind, M.pure, emit, halt, modSt, h1, h2, Prod.mk.injEq] at h <;>
    obtain ⟨rfl, rfl, rfl⟩ := h <;> simp [h1, h2, Ev.notCacheDelete]

theorem assemble_tree_run (env : Env) (s : St) (t : List Ev) (s1 : St)
    (res : Except Nat Unit) (h : (assemble_tree env) s = (t, s1, res)) :
    t.all Ev.notCacheDelete = true ∧
    s1.cached = s.cached ∧ s1.cacheDir = s.cacheDir ∧
    s1.installedVersion = s.installedVersion ∧
    (res = Except.ok () → s1.srcTree = false ∧ s1.appDir = false) ∧
    (∀ c, res = Except.error c → s1.srcTree = s.srcTree ∧ s1.appDir = s.appDir) ∧
    (env.fails Tool.installBinary = false → env.fails Tool.installLibDir = false →
      env.fails Tool.installShareDirs = false → res = Except.ok ()) := by
  unfold assemble_tree at h
  by_cases hb : s.buildDir <;>
    by_cases h1 : env.fails Tool.installBinary <;>
    by_cases h2 : env.fails Tool.installLibDir <;>
    by_cases h3 : env.fails Tool.installShareDirs <;>
    simp [M.bind, M.pure, emit, halt, getSt, modSt, runChecked,
      hb, h1, h2, h3, Prod.mk.injEq] at h <;>
    obtain ⟨rfl, rfl, rfl⟩ := h <;> simp [Ev.notCacheDelete, hb, h1, h2, h3]

theorem delete_archive_step_run (env : Env) (full must : Bool) (vi : VersionInfo)
    (s : St) (t : List Ev) (s1 : St) (res : Except Nat Unit)
    (h : (delete_archive_step env full must vi) s = (t, s1, res)) :
    res = Except.ok () ∧
    s1.srcTree = s.srcTree ∧ s1.appDir = s.appDir ∧
    s1.installedVersion = s.installedVersion ∧ s1.buildDir = s.buildDir ∧
    (full = false → t = [] ∧ s1 = s) ∧
    (must = false → t = [] ∧ s1 = s) ∧
    (Ev.unlinkArchive ∈ t →
      full = true ∧ must = true ∧ env.confirm Prompt.deleteArchive = true) ∧
    (Ev.rmdirCache ∈ t → Ev.unlinkArchive ∈ t ∧ s.cached.erase vi.archive = []) ∧
    (s1.cached = s.cached ∨ s1.cached = s.cached.erase vi.archive) ∧
    t.all (fun e => e == Ev.unlinkArchive || e == Ev.rmdirCache) = true := by
  unfold delete_archive_step at h
  by_cases hg : (full && must && env.confirm Prompt.deleteArchive) = true
  · by_cases he : s.cached.erase vi.archive = [] <;>
      simp [M.bind, M.pure, emit, getSt, modSt, hg, he, List.isEmpty_iff,
        Prod.mk.injEq] at h <;>
      obtain ⟨rfl, rfl, rfl⟩ := h <;>
      simp_all [Bool.and_eq_true]
  · simp [M.pure, hg, Prod.mk.injEq] at h
    obtain ⟨rfl, rfl, rfl⟩ := h
    simp

theorem final_install_run (env : Env) (full : Bool) (version : String) (s : St)
    (t : List Ev) (s1 : St) (res : Except Nat Unit)
    (h : (final_install env full version) s = (t, s1, res)) :
    t.all Ev.notCacheDelete = true ∧
    s1.cached = s.cached ∧ s1.cacheDir = s.cacheDir ∧
    s1.srcTree = s.srcTree ∧ s1.appDir = s.appDir ∧ s1.buildDir = s.buildDir ∧
    (env.fails Tool.dpkgDeb = false → res = Except.ok ()) := by
  unfold final_install at h
  by_cases h1 : env.fails Tool.dpkgDeb <;>
    by_cases h4 : full = true <;>
    by_cases hc : env.confirm Prompt.installPackage <;>
    by_cases h3 : env.fails Tool.aptInstallPackage <;>
    simp [M.bind, M.pure, emit, halt, modSt, runChecked, h1, h3, h4, hc,
      Prod.mk.injEq] at h <;>
    obtain ⟨rfl, rfl, rfl⟩ := h <;> simp [Ev.notCacheDelete, h1, h3, h4, hc]


/-- Events emitted by the environment-bootstrap phase. -/
def Ev.isBootstrapEvent : Ev → Bool
  | Ev.print _ => true
  | Ev.aptList _ => true
  | Ev.npmVersionQuery => true
  | Ev.npmViewLatest _ => true
  | Ev.npmList _ => true
  | Ev.tool (Tool.aptInstallTool _) => true
  | Ev.tool (Tool.npmInstallGlobal _) => true
  | _ => false

/-- Sequencing two state-preserving segments whose traces satisfy `P`
preserves the state and keeps the trace inside `P`. -/
theorem mbind_preserve {α β : Type} {m : M α} {f : α → M β} {P : Ev → Bool} {s : St}
    (hm : (m s).2.1 = s ∧ (m s).1.all P = true)
    (hf : ∀ a, ((f a) s).2.1 = s ∧ ((f a) s).1.all P = true) :
    ((M.bind m f) s).2.1 = s ∧ ((M.bind m f) s).1.all P = true := by
  unfold M.bind
  rcases hres : m s with ⟨t1, s1, r1⟩
  rw [hres] at hm
  have hs1 : s1 = s := hm.1
  have ht1 : t1.all P = true := hm.2
  cases r1 with
  | error c => simp [hs1, ht1]
  | ok a =>
    have h2 := hf a
    rcases hres2 : f a s with ⟨t2, s2, r2⟩
    rw [hres2] at h2
    simp [hs1, hres2, List.all_append, ht1, h2.2]
    exact h2.1

theorem check_apt_tool_run (env : Env) (nm : String) (s : St) :
    ((check_apt_tool env nm) s).2.1 = s ∧
    ((check_apt_tool env nm) s).1.all Ev.isBootstrapEvent = true := by
  unfold check_apt_tool
  cases henv : env.aptTools nm with
  | some v => simp [emit, Ev.isBootstrapEvent]
  | none =>
    by_cases hc : env.confirm (Prompt.aptTool nm) <;>
      simp [hc, emit, halt, Ev.isBootstrapEvent]

theorem check_apt_run (env : Env) (s : St) :
    ((check_apt env) s).2.1 = s ∧
    ((check_apt env) s).1.all Ev.isBootstrapEvent = true := by
  unfold check_apt
  simp only [mBind_def]
  apply mbind_preserve
  · simp [emit, Ev.isBootstrapEvent]
  · intro a
    apply mbind_preserve
    · exact check_apt_tool_run env ("npm") s
    · intro b
      exact check_apt_tool_run env ("dpkg") s

theorem npm_get_latest_version_run (env : Env) (nm : String) (s : St) :
    ((npm_get_latest_version env nm) s).2.1 = s ∧
    ((npm_get_latest_version env nm) s).1.all Ev.isBootstrapEvent = true := by
  simp [npm_get_latest_version, M.bind, M.pure, emit, Ev.isBootstrapEvent]

theorem runChecked_npm_run (env : Env) (nm : String) (s : St) :
    ((runChecked env (Tool.npmInstallGlobal nm)) s).2.1 = s ∧
    ((runChecked env (Tool.npmInstallGlobal nm)) s).1.all Ev.isBootstrapEvent = true := by
  by_cases hf : env.fails (Tool.npmInstallGlobal nm) <;>
    simp [runChecked, M.bind, M.pure, emit, halt, hf, Ev.isBootstrapEvent]

theorem npm_update_from_version_run (env : Env) (nm iv : String) (lv : Option String)
    (s : St) :
    ((npm_update_from_version env nm iv lv) s).2.1 = s ∧
    ((npm_update_from_version env nm iv lv) s).1.all Ev.isBootstrapEvent = true := by
  unfold npm_update_from_version
  cases lv with
  | some l =>
    simp only [mBind_def]
    apply mbind_preserve
    · simp [M.pure]
    · intro a
      by_cases h1 : iv = a
      · simp [h1, M.pure]
      · by_cases h2 : env.confirm (Prompt.npmUpdate nm)
        · simpa [h1, h2] using runChecked_npm_run env nm s
        · simp [h1, h2, M.pure]
  | none =>
    simp only [mBind_def]
    apply mbind_preserve
    · exact npm_get_latest_version_run env nm s
    · intro a
      by_cases h1 : iv = a
      · simp [h1, M.pure]
      · by_cases h2 : env.confirm (Prompt.npmUpdate nm)
        · simpa [h1, h2] using runChecked_npm_run env nm s
        · simp [h1, h2, M.pure]

theorem npm_install_run (env : Env) (nm : String) (s : St) :
    ((npm_install env nm) s).2.1 = s ∧
    ((npm_install env nm) s).1.all Ev.isBootstrapEvent = true := by
  unfold npm_install
  simp only [mBind_def]
  apply mbind_preserve
  · exact npm_get_latest_version_run env nm s
  · intro lv
    apply mbind_preserve
    · simp [emit, Ev.isBootstrapEvent]
    · intro b
      cases hg : env.npmGlobal nm with
      | none =>
        by_cases hc : env.confirm (Prompt.npmRequired nm)
        · simpa [hc] using runChecked_npm_run env nm s
        · simp [hc, halt]
      | some iv =>
        apply mbind_preserve
        · simp [emit, Ev.isBootstrapEvent]
        · intro c
          exact npm_update_from_version_run env nm iv (some lv) s

theorem check_npm_run (env : Env) (s : St) :
    ((check_npm env) s).2.1 = s ∧
    ((check_npm env) s).1.all Ev.isBootstrapEvent = true := by
  unfold check_npm
  simp only [mBind_def]
  apply mbind_preserve
  · by_cases hp : env.npmPresent <;>
      simp [hp, M.bind, M.pure, emit, halt, Ev.isBootstrapEvent]
  · intro a
    apply mbind_preserve
    · simp [emit, Ev.isBootstrapEvent]
    · intro b
      apply mbind_preserve
      · simp [emit, Ev.isBootstrapEvent]
      · intro c
        apply mbind_preserve
        · exact npm_update_from_version_run env ("npm") env.npmVersion none s
        · intro d
          apply mbind_preserve
          · exact npm_install_run env ("electron") s
          · intro e
            exact npm_install_run env ("@electron/asar") s

theorem bootstrap_run (env : Env) (s : St) :
    ((bootstrap env) s).2.1 = s ∧
    ((bootstrap env) s).1.all Ev.isBootstrapEvent = true := by
  unfold bootstrap
  simp only [mBind_def]
  apply mbind_preserve
  · exact check_apt_run env s
  · intro a
    exact check_npm_run env s


/-- Decomposition of one bind step: the first segment ran, and either
it aborted (its output is the whole output) or it returned a value and
the continuation ran from its final state. -/
theorem mbind_run {α β : Type} (m : M α) (f : α → M β) (s : St) (t : List Ev)
    (s2 : St) (r : Except Nat β) (h : (M.bind m f) s = (t, s2, r)) :
    ∃ t1 s1 r1, m s = (t1, s1, r1) ∧
      ((∃ c, r1 = Except.error c ∧ t = t1 ∧ s2 = s1 ∧ r = Except.error c) ∨
       (∃ a t2, r1 = Except.ok a ∧ f a s1 = (t2, s2, r) ∧ t = t1 ++ t2)) := by
  rcases hres : m s with ⟨t1, s1, r1⟩
  refine ⟨t1, s1, r1, rfl, ?_⟩
  unfold M.bind at h
  rw [hres] at h
  cases r1 with
  | error c =>
    simp only [Prod.mk.injEq] at h
    exact Or.inl ⟨c, rfl, h.1.symm, h.2.1.symm, h.2.2.symm⟩
  | ok a =>
    rcases hres2 : f a s1 with ⟨t2, s2b, r2⟩
    simp only [] at h
    rw [hres2] at h
    simp only [Prod.mk.injEq] at h
    exact Or.inr ⟨a, t2, rfl, by rw [hres2, h.2.1, h.2.2], h.1.symm⟩

theorem not_mem_of_all {p : Ev → Bool} {t : List Ev} (h : t.all p = true) {e : Ev}
    (he : p e = false) : e ∉ t := by
  intro hm
  have h2 := List.all_eq_true.mp h e hm
  rw [he] at h2
  exact Bool.false_ne_true h2

theorem all_notCacheDelete_not_mem {t : List Ev} (h : t.all Ev.notCacheDelete = true) :
    Ev.unlinkArchive ∉ t ∧ Ev.rmdirCache ∉ t :=
  ⟨not_mem_of_all h rfl, not_mem_of_all h rfl⟩

theorem all_obs_notCacheDelete {t : List Ev} (h : t.all Ev.isObservation = true) :
    t.all Ev.notCacheDelete = true := by
  rw [List.all_eq_true] at h ⊢
  intro e he
  exact obs_notCacheDelete (h e he)


theorem ite_emit_run (c : Prop) [Decidable c] (e1 e2 : Ev) (s : St) :
    ((if c then emit e1 else emit e2) : M Unit) s
      = ((if c then [e1] else [e2]), s, Except.ok ()) := by
  split <;> rfl

theorem ite_halt_run (c : Prop) [Decidable c] (k : Nat) (s : St) :
    ((if c then halt k else pure ()) : M Unit) s
      = ([], s, if c then Except.error k else Except.ok ()) := by
  split <;> rfl

theorem ite_emit_all (c : Prop) [Decidable c] (e1 e2 : Ev) (p : Ev → Bool)
    (h1 : p e1 = true) (h2 : p e2 = true) :
    (if c then [e1] else [e2]).all p = true := by
  split <;> simp [h1, h2]

theorem ensure_pred_notCacheDelete {t : List Ev}
    (h : t.all (fun e => e.isPrint || e == Ev.mkdirCache || e == Ev.tool Tool.wget) = true) :
    t.all Ev.notCacheDelete = true := by
  rw [List.all_eq_true] at h ⊢
  intro e he
  have h2 := h e he
  cases e <;> simp_all [Ev.isPrint, Ev.notCacheDelete]

theorem mem_ite_list {α : Type} (c : Prop) [Decidable c] (x : α) (l1 l2 : List α) :
    (x ∈ (if c then l1 else l2)) ↔ (if c then x ∈ l1 else x ∈ l2) := by
  split <;> rfl

/-- Execution facts about lines 150-301 used by the cache-preservation
and cleanup claims: a cache-directory removal presupposes an archive
deletion of an archive downloaded by this same run with an otherwise
empty cache; a pre-existing cache entry for the resolved version is
never deleted; with no failing tool, a run that started with no
extraction directories ends with none. -/
theorem install_core_run (full : Bool) (env : Env) (s : St) (t : List Ev)
    (sf : St) (r : Except Nat Unit)
    (h : (install_core full env) s = (t, sf, r)) :
    (Ev.rmdirCache ∈ t → Ev.unlinkArchive ∈ t ∧ s.cached = []) ∧
    (∀ vi, parseVersionUrl env.redirectUrl = some vi → vi.archive ∈ s.cached →
      Ev.unlinkArchive ∉ t ∧ Ev.rmdirCache ∉ t ∧ sf.cached = s.cached) ∧
    ((∀ tl, env.fails tl = false) → s.srcTree = false → s.appDir = false →
      sf.srcTree = false ∧ sf.appDir = false) := by
  unfold install_core at h
  simp only [mBind_def] at h
  -- resolution
  obtain ⟨t1, s1, r1, h1, hc1⟩ := mbind_run _ _ _ _ _ _ h
  obtain ⟨hs1, ht1, hv1⟩ := get_version_info_run env s t1 s1 r1 h1
  have hs1s : s = s1 := hs1.symm
  subst hs1s
  have ht1n := all_notCacheDelete_not_mem (all_obs_notCacheDelete ht1)
  rcases hc1 with ⟨c, hr1, rfl, rfl, rfl⟩ | ⟨vi, trest, hr1, hA, rfl⟩
  · exact ⟨fun hm => absurd hm ht1n.2,
      fun _ _ _ => ⟨ht1n.1, ht1n.2, rfl⟩,
      fun _ hs ha => ⟨hs, ha⟩⟩
  have hvi : parseVersionUrl env.redirectUrl = some vi := hv1 vi hr1
  -- installed-version query
  obtain ⟨t2, s2, r2, h2, hc2⟩ := mbind_run _ _ _ _ _ _ hA
  rw [apt_get_installed_version_run s] at h2
  simp only [Prod.mk.injEq] at h2
  obtain ⟨rfl, rfl, rfl⟩ := h2
  rcases hc2 with ⟨c, hrr, _, _, _⟩ | ⟨inst, trest2, hrr, hB, rfl⟩
  · simp at hrr
  obtain rfl : s.installedVersion = inst := Except.ok.inj hrr
  -- report line
  obtain ⟨t3, s3, r3, h3, hc3⟩ := mbind_run _ _ _ _ _ _ hB
  rw [ite_emit_run] at h3
  simp only [Prod.mk.injEq] at h3
  obtain ⟨rfl, rfl, rfl⟩ := h3
  rcases hc3 with ⟨c, hrr, _, _, _⟩ | ⟨u3, trest3, hrr, hC, rfl⟩
  · simp at hrr
  -- build gate
  obtain ⟨t4, s4, r4, h4, hc4⟩ := mbind_run _ _ _ _ _ _ hC
  rw [ite_halt_run] at h4
  simp only [Prod.mk.injEq] at h4
  obtain ⟨rfl, rfl, rfl⟩ := h4
  rcases hc4 with ⟨c, hrr, rfl, rfl, rfl⟩ | ⟨u4, trest4, hrr, hD, rfl⟩
  · refine ⟨?_, fun vi2 _ _ => ⟨?_, ?_, rfl⟩, fun _ hs ha => ⟨hs, ha⟩⟩
    · intro hm
      simp only [List.mem_append] at hm
      simp [mem_ite_list, ht1n.2] at hm
    · simp [List.mem_append, mem_ite_list, ht1n.1]
    · simp [List.mem_append, mem_ite_list, ht1n.2]
  -- archive cache
  obtain ⟨t5, s5, r5, h5, hc5⟩ := mbind_run _ _ _ _ _ _ hD
  obtain ⟨ht5p, hwget5, hmk5, hsrc5, happ5, hiv5, hbd5, hcd5, hok5t, hok5f, herr5, hmem5, habs5⟩ :=
    ensure_local_run env vi s t5 s5 r5 h5
  have ht5n := all_notCacheDelete_not_mem (ensure_pred_notCacheDelete ht5p)
  rcases hc5 with ⟨c, hrr, rfl, rfl, rfl⟩ | ⟨must, trest5, hrr, hE, rfl⟩
  · refine ⟨?_, fun vi2 _ _ => ⟨?_, ?_, herr5 c hrr⟩, ?_⟩
    · intro hm
      simp only [List.mem_append] at hm
      simp [mem_ite_list, ht1n.2, ht5n.2] at hm
    · simp [List.mem_append, mem_ite_list, ht1n.1, ht5n.1]
    · simp [List.mem_append, mem_ite_list, ht1n.2, ht5n.2]
    · intro hf hs ha
      have hok : r5 = Except.ok (!s.cached.contains vi.archive) := by
        by_cases hm : vi.archive ∈ s.cached
        · rw [hmem5 hm]
          simp [hm]
        · rw [habs5 hm (hf Tool.wget)]
          simp [hm]
      rw [hok] at hrr
      simp at hrr
  have hmustt : must = true → vi.archive ∉ s.cached ∧ s5.cached = vi.archive :: s.cached := by
    intro hm
    exact hok5t (by rw [hrr, hm])
  have hmustf : must = false → vi.archive ∈ s.cached ∧ s5.cached = s.cached := by
    intro hm
    exact hok5f (by rw [hrr, hm])
  have hmemf : vi.archive ∈ s.cached → must = false := by
    intro hm
    have := hmem5 hm
    rw [hrr] at this
    simpa using this.symm
  -- decompression
  obtain ⟨t6, s6, r6, h6, hc6⟩ := mbind_run _ _ _ _ _ _ hE
  obtain ⟨ht6e, hch6, hcd6, hiv6, happ6, hbd6, hok6, herr6, hfo6⟩ :=
    decompress_archive_run env s5 t6 s6 r6 h6
  subst ht6e
  rcases hc6 with ⟨c, hrr6, rfl, rfl, rfl⟩ | ⟨u6, trest6, hrr6, hF, rfl⟩
  · refine ⟨?_, fun vi2 hvi2 hpre => ⟨?_, ?_, ?_⟩, ?_⟩
    · intro hm
      simp only [List.mem_append] at hm
      simp [mem_ite_list, ht1n.2, ht5n.2] at hm
    · simp [List.mem_append, mem_ite_list, ht1n.1, ht5n.1]
    · simp [List.mem_append, mem_ite_list, ht1n.2, ht5n.2]
    · obtain rfl : vi2 = vi := by
        rw [hvi] at hvi2
        exact (Option.some.inj hvi2).symm
      rw [hch6, (hmustf (hmemf hpre)).2]
    · intro hf hs ha
      rw [hfo6 (hf Tool.tar)] at hrr6
      simp at hrr6
  -- patch phase
  obtain ⟨t7, s7, r7, h7, hc7⟩ := mbind_run _ _ _ _ _ _ hF
  obtain ⟨ht7n0, hch7, hcd7, hiv7, hsrc7, hbd7, hok7, hfo7⟩ :=
    patch_sources_run env s6 t7 s7 r7 h7
  have ht7n := all_notCacheDelete_not_mem ht7n0
  rcases hc7 with ⟨c, hrr7, rfl, rfl, rfl⟩ | ⟨u7, trest7, hrr7, hG, rfl⟩
  · refine ⟨?_, fun vi2 hvi2 hpre => ⟨?_, ?_, ?_⟩, ?_⟩
    · intro hm
      simp only [List.mem_append] at hm
      simp [mem_ite_list, ht1n.2, ht5n.2, ht7n.2] at hm
    · simp [List.mem_append, mem_ite_list, ht1n.1, ht5n.1, ht7n.1]
    · simp [List.mem_append, mem_ite_list, ht1n.2, ht5n.2, ht7n.2]
    · obtain rfl : vi2 = vi := by
        rw [hvi] at hvi2
        exact (Option.some.inj hvi2).symm
      rw [hch7, hch6, (hmustf (hmemf hpre)).2]
    · intro hf hs ha
      rw [hfo7 (hf Tool.asarExtract) (hf Tool.asarPack)] at hrr7
      simp at hrr7
  -- assembly
  obtain ⟨t8, s8, r8, h8, hc8⟩ := mbind_run _ _ _ _ _ _ hG
  obtain ⟨ht8n0, hch8, hcd8, hiv8, hok8, herr8, hfo8⟩ :=
    assemble_tree_run env s7 t8 s8 r8 h8
  have ht8n := all_notCacheDelete_not_mem ht8n0
  rcases hc8 with ⟨c, hrr8, rfl, rfl, rfl⟩ | ⟨u8, trest8, hrr8, hH, rfl⟩
  · refine ⟨?_, fun vi2 hvi2 hpre => ⟨?_, ?_, ?_⟩, ?_⟩
    · intro hm
      simp only [List.mem_append] at hm
      simp [mem_ite_list, ht1n.2, ht5n.2, ht7n.2, ht8n.2] at hm
    · simp [List.mem_append, mem_ite_list, ht1n.1, ht5n.1, ht7n.1, ht8n.1]
    · simp [List.mem_append, mem_ite_list, ht1n.2, ht5n.2, ht7n.2, ht8n.2]
    · obtain rfl : vi2 = vi := by
        rw [hvi] at hvi2
        exact (Option.some.inj hvi2).symm
      rw [hch8, hch7, hch6, (hmustf (hmemf hpre)).2]
    · intro hf hs ha
      rw [hfo8 (hf Tool.installBinary) (hf Tool.installLibDir)
        (hf Tool.installShareDirs)] at hrr8
      simp at hrr8
  -- archive deletion
  obtain ⟨t9, s9, r9, h9, hc9⟩ := mbind_run _ _ _ _ _ _ hH
  obtain ⟨hok9, hsrc9, happ9, hiv9, hbd9, hfull9, hmust9, hunl9, hrmd9, hch9⟩ :=
    delete_archive_step_run env full must vi s8 t9 s9 r9 h9
  rcases hc9 with ⟨c, hrr9, rfl, rfl, rfl⟩ | ⟨u9, trest9, hrr9, hI, rfl⟩
  · rw [hok9] at hrr9
    simp at hrr9
  -- packaging and final install
  obtain ⟨ht10n0, hch10, hcd10, hsrc10, happ10, hbd10, hfo10⟩ :=
    final_install_run env full vi.version s9 trest9 sf r hI
  have ht10n := all_notCacheDelete_not_mem ht10n0
  refine ⟨?_, fun vi2 hvi2 hpre => ?_, ?_⟩
  · intro hm
    have hm9 : Ev.rmdirCache ∈ t9 := by
      simp only [List.mem_append] at hm
      simpa [mem_ite_list, ht1n.2, ht5n.2, ht7n.2, ht8n.2, ht10n.2] using hm
    obtain ⟨hu9, herase⟩ := hrmd9 hm9
    obtain ⟨_, hmt, _⟩ := hunl9 hu9
    constructor
    · simp [List.mem_append, hu9]
    · have h5c : s5.cached = vi.archive :: s.cached := (hmustt hmt).2
      have h8c : s8.cached = vi.archive :: s.cached := by
        rw [hch8, hch7, hch6, h5c]
      rw [h8c] at herase
      simpa using herase
  · obtain rfl : vi2 = vi := by
      rw [hvi] at hvi2
      exact (Option.some.inj hvi2).symm
    obtain ⟨ht9e, hs9e⟩ := hmust9 (hmemf hpre)
    subst ht9e
    refine ⟨?_, ?_, ?_⟩
    · simp [List.mem_append, mem_ite_list, ht1n.1, ht5n.1, ht7n.1, ht8n.1, ht10n.1]
    · simp [List.mem_append, mem_ite_list, ht1n.2, ht5n.2, ht7n.2, ht8n.2, ht10n.2]
    · rw [hch10, hs9e, hch8, hch7, hch6, (hmustf (hmemf hpre)).2]
  · intro hf hs ha
    have h8ok : r8 = Except.ok () := hfo8 (hf Tool.installBinary)
      (hf Tool.installLibDir) (hf Tool.installShareDirs)
    obtain ⟨hsrc8, happ8⟩ := hok8 h8ok
    exact ⟨by rw [hsrc10, hsrc9, hsrc8], by rw [happ10, happ9, happ8]⟩


theorem mApp_ite {α : Type} (c : Prop) [Decidable c] (m1 m2 : M α) (s : St) :
    (if c then m1 else m2) s = if c then m1 s else m2 s := by
  split <;> rfl

theorem mbind_eval_ok {α β : Type} (m : M α) (f : α → M β) (s s1 : St) (t1 : List Ev)
    (a : α) (h : m s = (t1, s1, Except.ok a)) :
    (M.bind m f) s = (t1 ++ (f a s1).1, (f a s1).2.1, (f a s1).2.2) := by
  unfold M.bind
  rw [h]

theorem mbind_eval_err {α β : Type} (m : M α) (f : α → M β) (s s1 : St) (t1 : List Ev)
    (c : Nat) (h : m s = (t1, s1, Except.error c)) :
    (M.bind m f) s = (t1, s1, Except.error c) := by
  unfold M.bind
  rw [h]

theorem mbind_ok2 {α : Type} {m : M α} {f : α → M Unit} {s : St}
    (hm1 : (m s).2.1 = s) (hm2 : ∀ c, (m s).2.2 ≠ Except.error c)
    (hf : ∀ a, ((f a) s).2.2 = Except.ok ()) :
    ((M.bind m f) s).2.2 = Except.ok () := by
  rcases hres : m s with ⟨t1, s1, r1⟩
  rw [hres] at hm1 hm2
  unfold M.bind
  rw [hres]
  cases r1 with
  | error c => exact absurd rfl (hm2 c)
  | ok a =>
    have hs1 : s1 = s := hm1
    rw [hs1]
    rcases hres2 : f a s with ⟨t2, s2, r2⟩
    have hok := hf a
    rw [hres2] at hok
    simpa [hres2] using hok

theorem check_apt_ok (env : Env) (s : St) (hconf : ∀ p, env.confirm p = true) :
    ((check_apt env) s).2.2 = Except.ok () := by
  unfold check_apt check_apt_tool
  cases h1 : env.aptTools ("npm") <;> cases h2 : env.aptTools ("dpkg") <;>
    simp [M.bind, M.pure, emit, halt, hconf, h1, h2]

theorem npm_update_from_version_ok (env : Env) (nm iv : String) (lv : Option String)
    (s : St) (hconf : ∀ p, env.confirm p = true)
    (hfnpm : ∀ nm2, env.fails (Tool.npmInstallGlobal nm2) = false) :
    ((npm_update_from_version env nm iv lv) s).2.2 = Except.ok () := by
  unfold npm_update_from_version npm_get_latest_version runChecked
  cases lv <;>
    simp [M.bind, M.pure, emit, halt, hconf, hfnpm, mApp_ite] <;>
    split <;> rfl

theorem npm_install_ok (env : Env) (nm : String) (s : St)
    (hconf : ∀ p, env.confirm p = true)
    (hfnpm : ∀ nm2, env.fails (Tool.npmInstallGlobal nm2) = false) :
    ((npm_install env nm) s).2.2 = Except.ok () := by
  unfold npm_install npm_update_from_version npm_get_latest_version runChecked
  cases hg : env.npmGlobal nm <;>
    simp [M.bind, M.pure, emit, halt, hconf, hfnpm, hg, mApp_ite] <;>
    split <;> rfl

theorem check_npm_ok (env : Env) (s : St) (hconf : ∀ p, env.confirm p = true)
    (hnpm : env.npmPresent = true)
    (hfnpm : ∀ nm, env.fails (Tool.npmInstallGlobal nm) = false) :
    ((check_npm env) s).2.2 = Except.ok () := by
  unfold check_npm
  simp only [mBind_def]
  apply mbind_ok2
  · simp [hnpm, M.pure]
  · intro c
    simp [hnpm, M.pure]
  · intro a
    apply mbind_ok2
    · simp [emit]
    · intro c
      simp [emit]
    · intro b
      apply mbind_ok2
      · simp [emit]
      · intro c
        simp [emit]
      · intro c2
        apply mbind_ok2
        · exact (npm_update_from_version_run env ("npm") env.npmVersion none s).1
        · intro c
          rw [npm_update_from_version_ok env ("npm") env.npmVersion none s hconf hfnpm]
          simp
        · intro d
          apply mbind_ok2
          · exact (npm_install_run env ("electron") s).1
          · intro c
            rw [npm_install_ok env ("electron") s hconf hfnpm]
            simp
          · intro e
            exact npm_install_ok env ("@electron/asar") s hconf hfnpm

theorem bootstrap_ok (env : Env) (s : St) (hconf : ∀ p, env.confirm p = true)
    (hnpm : env.npmPresent = true)
    (hfnpm : ∀ nm, env.fails (Tool.npmInstallGlobal nm) = false) :
    ((bootstrap env) s).2.2 = Except.ok () := by
  unfold bootstrap
  simp only [mBind_def]
  apply mbind_ok2
  · exact (check_apt_run env s).1
  · intro c
    rw [check_apt_ok env s hconf]
    simp
  · intro a
    exact check_npm_ok env s hconf hnpm hfnpm

theorem all_bootstrap_not_cache {t : List Ev} (h : t.all Ev.isBootstrapEvent = true) :
    Ev.unlinkArchive ∉ t ∧ Ev.rmdirCache ∉ t :=
  ⟨not_mem_of_all h rfl, not_mem_of_all h rfl⟩

/-- A full run splits into a bootstrap phase (interactive only) and
the core; the bootstrap either aborts cleanly, leaving the state
untouched and a bootstrap-only trace, or completes and the core runs
from the original state. -/
theorem runInstall_split (full : Bool) (env : Env) (s : St) :
    (∃ tb c, tb.all Ev.isBootstrapEvent = true ∧
      runInstall full env s = ⟨tb, s, c⟩) ∨
    (∃ tb tc sc rc, tb.all Ev.isBootstrapEvent = true ∧
      (install_core full env) s = (tc, sc, rc) ∧
      runInstall full env s
        = ⟨tb ++ tc, sc, match rc with | Except.ok _ => 0 | Except.error c => c⟩) := by
  unfold runInstall runM do_install
  simp only [mBind_def]
  cases full with
  | false =>
    right
    rcases hc : (install_core false env) s with ⟨tc, sc, rc⟩
    refine ⟨[], tc, sc, rc, rfl, rfl, ?_⟩
    cases rc <;> simp [mPure_def, M.bind, M.pure, hc]
  | true =>
    rcases hb : (bootstrap env) s with ⟨tb, sb, rb⟩
    have hbr := bootstrap_run env s
    rw [hb] at hbr
    have hsb : sb = s := hbr.1
    cases rb with
    | error c =>
      left
      refine ⟨tb, c, hbr.2, ?_⟩
      simp [M.bind, hb, hsb]
    | ok a =>
      right
      rcases hc : (install_core true env) s with ⟨tc, sc, rc⟩
      refine ⟨tb, tc, sc, rc, hbr.2, rfl, ?_⟩
      cases rc <;> simp [M.bind, hb, hsb, hc]


/-- Claim C10: a cache entry that already existed at the start of a
run is never deleted by that run - the delete-archive step is
reachable only for an archive downloaded during the same run - and
the cache directory itself is removed only when the deletion of that
freshly downloaded archive left the directory empty (the cache held
nothing else when the run began). -/
theorem C10_preexisting_cache_kept (full : Bool) (env : Env) (s : St) (vi : VersionInfo)
    (hurl : parseVersionUrl env.redirectUrl = some vi)
    (hpre : vi.archive ∈ s.cached) :
    Ev.unlinkArchive ∉ (runInstall full env s).trace ∧
    Ev.rmdirCache ∉ (runInstall full env s).trace ∧
    (runInstall full env s).state.cached = s.cached ∧
    (∀ full2 env2 s2, Ev.rmdirCache ∈ (runInstall full2 env2 s2).trace →
      Ev.unlinkArchive ∈ (runInstall full2 env2 s2).trace ∧ s2.cached = []) := by
  have part1 : Ev.unlinkArchive ∉ (runInstall full env s).trace ∧
      Ev.rmdirCache ∉ (runInstall full env s).trace ∧
      (runInstall full env s).state.cached = s.cached := by
    rcases runInstall_split full env s with ⟨tb, c, hall, heq⟩ |
      ⟨tb, tc, sc, rc, hall, hcore, heq⟩
    · rw [heq]
      obtain ⟨hu, hr⟩ := all_bootstrap_not_cache hall
      exact ⟨hu, hr, rfl⟩
    · rw [heq]
      obtain ⟨hu2, hr2, hc2⟩ := (install_core_run full env s tc sc rc hcore).2.1 vi hurl hpre
      obtain ⟨hu1, hr1⟩ := all_bootstrap_not_cache hall
      refine ⟨?_, ?_, hc2⟩
      · simp [List.mem_append, hu1, hu2]
      · simp [List.mem_append, hr1, hr2]
  refine ⟨part1.1, part1.2.1, part1.2.2, ?_⟩
  intro full2 env2 s2 hm
  rcases runInstall_split full2 env2 s2 with ⟨tb, c, hall, heq⟩ |
    ⟨tb, tc, sc, rc, hall, hcore, heq⟩
  · rw [heq] at hm ⊢
    exact absurd hm (all_bootstrap_not_cache hall).2
  · rw [heq] at hm ⊢
    simp only [List.mem_append] at hm
    rcases hm with hm | hm
    · exact absurd hm (all_bootstrap_not_cache hall).2
    · obtain ⟨hu, hc0⟩ := (install_core_run full2 env2 s2 tc sc rc hcore).1 hm
      constructor
      · simp [List.mem_append, hu]
      · exact hc0

/-- 0.0.51 archive already cached. -/
def cachedSt : St :=
  { cleanSt with cached := ["discord-0.0.51.tar.gz"], cacheDir := true }

/-- Witness for C10 at an interactive accept-all run over a warm cache. -/
theorem C10_preexisting_cache_kept_witness :
    parseVersionUrl baseEnv.redirectUrl = some wVi ∧
    wVi.archive ∈ cachedSt.cached ∧
    (Ev.unlinkArchive ∉ (runInstall true baseEnv cachedSt).trace ∧
      Ev.rmdirCache ∉ (runInstall true baseEnv cachedSt).trace ∧
      (runInstall true baseEnv cachedSt).state.cached = cachedSt.cached ∧
      (∀ full2 env2 s2, Ev.rmdirCache ∈ (runInstall full2 env2 s2).trace →
        Ev.unlinkArchive ∈ (runInstall full2 env2 s2).trace ∧ s2.cached = [])) :=
  ⟨by decide, by decide,
    C10_preexisting_cache_kept true baseEnv cachedSt wVi (by decide) (by decide)⟩

/-- Environment in which exactly the `asar p` repack invocation fails. -/
def asarPackFailEnv : Env := { baseEnv with fails := fun tl => tl == Tool.asarPack }

/-- Claim C7, counterexample: with a failing repack step, the silent
run aborts with status 1 and leaves both the decompressed bundle tree
(`Discord/`) and the unpacked resource working directory
(`resources/app`) on disk: the source has no cleanup handler on the
failure path. -/
theorem C7_counterexample :
    (runInstall false asarPackFailEnv cleanSt).exitCode = 1 ∧
    (runInstall false asarPackFailEnv cleanSt).state.srcTree = true ∧
    (runInstall false asarPackFailEnv cleanSt).state.appDir = true := by
  decide

/-- Claim C7 (amended): on every exit path on which no external tool
invocation fails - including the short-circuit and declined-gate exits
- a run that starts with no leftover extraction directories ends with
none: the decompressed bundle tree and the unpacked resource working
directory are gone.  (On a failing tool invocation the run aborts
without cleanup and may leave both trees on disk.) -/
theorem C7_cleanup_no_failure (full : Bool) (env : Env) (s : St)
    (hfail : ∀ tl, env.fails tl = false)
    (hs : s.srcTree = false) (ha : s.appDir = false) :
    (runInstall full env s).state.srcTree = false ∧
    (runInstall full env s).state.appDir = false := by
  rcases runInstall_split full env s with ⟨tb, c, hall, heq⟩ |
    ⟨tb, tc, sc, rc, hall, hcore, heq⟩
  · rw [heq]
    exact ⟨hs, ha⟩
  · rw [heq]
    exact (install_core_run full env s tc sc rc hcore).2.2 hfail hs ha

/-- Witness for the amended C7 at a failure-free interactive run. -/
theorem C7_cleanup_no_failure_witness :
    (∀ tl, baseEnv.fails tl = false) ∧ cleanSt.srcTree = false ∧ cleanSt.appDir = false ∧
    ((runInstall true baseEnv cleanSt).state.srcTree = false ∧
      (runInstall true baseEnv cleanSt).state.appDir = false) :=
  ⟨fun tl => rfl, rfl, rfl,
    C7_cleanup_no_failure true baseEnv cleanSt (fun tl => rfl) rfl rfl⟩


/-- The archive-cache block invokes `wget` exactly once on a miss and
never on a hit. -/
theorem ensure_local_count (env : Env) (vi : VersionInfo) (s : St) (t : List Ev) (s1 : St)
    (res : Except Nat Bool) (h : (ensure_local env vi) s = (t, s1, res)) :
    t.count (Ev.tool Tool.wget) = (if vi.archive ∈ s.cached then 0 else 1) := by
  unfold ensure_local at h
  by_cases hc : s.cacheDir <;> by_cases hm : vi.archive ∈ s.cached <;>
    by_cases hf : env.fails Tool.wget <;>
    simp [M.bind, M.pure, emit, halt, getSt, modSt, hc, hm, hf, Prod.mk.injEq] at h <;>
    obtain ⟨rfl, rfl, rfl⟩ := h <;>
    simp [hm, List.count_cons, List.count_nil]

/-- Claim C5: ensuring a local archive copy downloads (`wget`) if and
only if the archive file is absent from the cache directory, creates
the cache directory only when it is missing, and two consecutive runs
of the block with the same `VersionInfo` (cache entry retained)
perform exactly one download: the first downloads once, the second is
a cache hit with no download and no state change. -/
theorem C5_cache_behaviour (env : Env) (vi : VersionInfo) (s : St)
    (hfail : env.fails Tool.wget = false) :
    (∀ t s1 res, (ensure_local env vi) s = (t, s1, res) →
      ((Ev.tool Tool.wget ∈ t) ↔ vi.archive ∉ s.cached) ∧
      ((Ev.mkdirCache ∈ t) ↔ s.cacheDir = false)) ∧
    (vi.archive ∉ s.cached →
      ∃ t1 s1 t2 s2,
        (ensure_local env vi) s = (t1, s1, Except.ok true) ∧
        (ensure_local env vi) s1 = (t2, s2, Except.ok false) ∧
        t1.count (Ev.tool Tool.wget) = 1 ∧
        t2.count (Ev.tool Tool.wget) = 0 ∧ s2 = s1) := by
  constructor
  · intro t s1 res h
    have H := ensure_local_run env vi s t s1 res h
    exact ⟨H.2.1, H.2.2.1⟩
  · intro habs
    rcases h1 : (ensure_local env vi) s with ⟨t1, s1, r1⟩
    obtain ⟨hA, hB, hC, hD, hE, hF, hG, hH, hI, hJ, hK, hL, hM⟩ :=
      ensure_local_run env vi s t1 s1 r1 h1
    have hr1 : r1 = Except.ok true := hM habs hfail
    subst hr1
    obtain ⟨-, hcs1⟩ := hI rfl
    have hmem1 : vi.archive ∈ s1.cached := by
      rw [hcs1]
      exact List.mem_cons_self _ _
    rcases h2 : (ensure_local env vi) s1 with ⟨t2, s2, r2⟩
    obtain ⟨hA2, hB2, hC2, hD2, hE2, hF2, hG2, hH2, hI2, hJ2, hK2, hL2, hM2⟩ :=
      ensure_local_run env vi s1 t2 s2 r2 h2
    have hr2 : r2 = Except.ok false := hL2 hmem1
    subst hr2
    obtain ⟨-, hcs2⟩ := hJ2 rfl
    refine ⟨t1, s1, t2, s2, rfl, h2, ?_, ?_, ?_⟩
    · rw [ensure_local_count env vi s t1 s1 _ h1]
      simp [habs]
    · rw [ensure_local_count env vi s1 t2 s2 _ h2]
      simp [hmem1]
    · rcases s2 with ⟨a1, a2, a3, a4, a5, a6⟩
      rcases s1 with ⟨b1, b2, b3, b4, b5, b6⟩
      simp only at hD2 hE2 hF2 hG2 hH2 hcs2 hH
      simp [hD2, hE2, hF2, hG2, hH2, hcs2, hH]

/-- Witness for C5 at `baseEnv` / `wVi` over an empty cache. -/
theorem C5_cache_behaviour_witness :
    baseEnv.fails Tool.wget = false ∧ wVi.archive ∉ cleanSt.cached ∧
    ((∀ t s1 res, (ensure_local baseEnv wVi) cleanSt = (t, s1, res) →
      ((Ev.tool Tool.wget ∈ t) ↔ wVi.archive ∉ cleanSt.cached) ∧
      ((Ev.mkdirCache ∈ t) ↔ cleanSt.cacheDir = false)) ∧
    (wVi.archive ∉ cleanSt.cached →
      ∃ t1 s1 t2 s2,
        (ensure_local baseEnv wVi) cleanSt = (t1, s1, Except.ok true) ∧
        (ensure_local baseEnv wVi) s1 = (t2, s2, Except.ok false) ∧
        t1.count (Ev.tool Tool.wget) = 1 ∧
        t2.count (Ev.tool Tool.wget) = 0 ∧ s2 = s1)) :=
  ⟨rfl, by decide, C5_cache_behaviour baseEnv wVi cleanSt rfl⟩

/-- Claim C9: a declined gating confirmation terminates the run with
exit status zero, unchanged state, and a purely read-only trace: (a)
the build-package gate declined under a quiet bootstrap, (b) a
required apt tool missing and its install declined, (c) a required
npm package missing and its install declined. -/
theorem C9_declined_confirms (envA envB envC : Env) (s : St) (vi : VersionInfo)
    (v1 v2 ve va w1 w2 : String)
    (hurlA : parseVersionUrl envA.redirectUrl = some vi)
    (ha1 : envA.aptTools ("npm") = some v1) (ha2 : envA.aptTools ("dpkg") = some v2)
    (ha3 : envA.npmPresent = true)
    (ha4 : ∀ nm, envA.confirm (Prompt.npmUpdate nm) = false)
    (ha5 : envA.npmGlobal ("electron") = some ve)
    (ha6 : envA.npmGlobal ("@electron/asar") = some va)
    (hagate : envA.confirm Prompt.buildPackage = false)
    (hb1 : envB.aptTools ("npm") = none)
    (hb2 : envB.confirm (Prompt.aptTool ("npm")) = false)
    (hc1 : envC.aptTools ("npm") = some w1) (hc2 : envC.aptTools ("dpkg") = some w2)
    (hc3 : envC.npmPresent = true)
    (hc4 : ∀ nm, envC.confirm (Prompt.npmUpdate nm) = false)
    (hc5 : envC.npmGlobal ("electron") = none)
    (hc6 : envC.confirm (Prompt.npmRequired ("electron")) = false) :
    ((runInstall true envA s).exitCode = 0 ∧ (runInstall true envA s).state = s ∧
      (runInstall true envA s).trace.all Ev.isObservation = true) ∧
    ((runInstall true envB s).exitCode = 0 ∧ (runInstall true envB s).state = s ∧
      (runInstall true envB s).trace.all Ev.isObservation = true) ∧
    ((runInstall true envC s).exitCode = 0 ∧ (runInstall true envC s).state = s ∧
      (runInstall true envC s).trace.all Ev.isObservation = true) := by
  refine ⟨?_, ?_, ?_⟩
  · by_cases hi : s.installedVersion = some vi.version <;>
      simp [runInstall, runM, do_install, bootstrap, install_core,
        check_apt, check_apt_tool, check_npm,
        npm_install, npm_update_from_version, npm_get_latest_version, runChecked,
        get_version_info, apt_get_installed_version,
        M.bind, M.pure, emit, halt, getSt, modSt,
        hurlA, hi, hagate, ha1, ha2, ha3, ha4, ha5, ha6, Ev.isObservation]
  · simp [runInstall, runM, do_install, bootstrap, install_core,
      check_apt, check_apt_tool,
      M.bind, M.pure, emit, halt, getSt,
      hb1, hb2, Ev.isObservation]
  · simp [runInstall, runM, do_install, bootstrap, install_core,
      check_apt, check_apt_tool, check_npm,
      npm_install, npm_update_from_version, npm_get_latest_version, runChecked,
      M.bind, M.pure, emit, halt, getSt,
      hc1, hc2, hc3, hc4, hc5, hc6, Ev.isObservation]

/-- No apt tools installed at all. -/
def noAptEnv : Env := { noConfirmEnv with aptTools := fun _ => none }

/-- No global npm packages installed. -/
def noElectronEnv : Env := { noConfirmEnv with npmGlobal := fun _ => none }

/-- Witness for C9: the three declined-gate scenarios at concrete
environments that each decline every prompt. -/
theorem C9_declined_confirms_witness :
    parseVersionUrl noConfirmEnv.redirectUrl = some wVi ∧
    noConfirmEnv.confirm Prompt.buildPackage = false ∧
    noAptEnv.aptTools ("npm") = none ∧
    noElectronEnv.npmGlobal ("electron") = none ∧
    (((runInstall true noConfirmEnv cleanSt).exitCode = 0 ∧
        (runInstall true noConfirmEnv cleanSt).state = cleanSt ∧
        (runInstall true noConfirmEnv cleanSt).trace.all Ev.isObservation = true) ∧
      ((runInstall true noAptEnv cleanSt).exitCode = 0 ∧
        (runInstall true noAptEnv cleanSt).state = cleanSt ∧
        (runInstall true noAptEnv cleanSt).trace.all Ev.isObservation = true) ∧
      ((runInstall true noElectronEnv cleanSt).exitCode = 0 ∧
        (runInstall true noElectronEnv cleanSt).state = cleanSt ∧
        (runInstall true noElectronEnv cleanSt).trace.all Ev.isObservation = true)) :=
  ⟨by decide, rfl, rfl, rfl,
    C9_declined_confirms noConfirmEnv noAptEnv noElectronEnv cleanSt wVi
      ("8.0") ("1.21") ("25.0") ("3.2") ("8.0") ("1.21")
      (by decide) (by decide) (by decide) rfl (fun nm => rfl) (by decide) (by decide) rfl
      rfl rfl (by decide) (by decide) rfl (fun nm => rfl) rfl rfl⟩


theorem runM_trace (m : M Unit) (s : St) : (runM m s).trace = (m s).1 := by
  unfold runM
  rcases h : m s with ⟨t, s1, r⟩
  cases r <;> rfl

theorem mbind_pure_left {α β : Type} (a : α) (f : α → M β) : M.bind (M.pure a) f = f a := by
  funext s
  unfold M.bind M.pure
  rcases h : f a s with ⟨t, s1, r⟩
  simp [h]

theorem notCacheDelete_keep {e : Ev} (h : e.notCacheDelete = true) :
    (!(e == Ev.unlinkArchive) && !(e == Ev.rmdirCache)) = true := by
  cases e <;> first
    | rfl
    | exact (Bool.false_ne_true h).elim

theorem filter_stable_of_notCacheDelete {t : List Ev}
    (h : t.all Ev.notCacheDelete = true) :
    (t.filter Ev.isPipelineAction).filter
      (fun e => !(e == Ev.unlinkArchive) && !(e == Ev.rmdirCache))
      = t.filter Ev.isPipelineAction := by
  rw [List.filter_eq_self]
  intro a ha
  exact notCacheDelete_keep
    (List.all_eq_true.mp h a (List.mem_of_mem_filter ha))

theorem delete_filter_nil {t : List Ev}
    (h : t.all (fun e => e == Ev.unlinkArchive || e == Ev.rmdirCache) = true) :
    (t.filter Ev.isPipelineAction).filter
      (fun e => !(e == Ev.unlinkArchive) && !(e == Ev.rmdirCache)) = [] := by
  rw [List.filter_eq_nil_iff]
  intro a ha
  have hd := List.all_eq_true.mp h a (List.mem_of_mem_filter ha)
  simp only [Bool.or_eq_true, beq_iff_eq] at hd
  rcases hd with rfl | rfl <;> decide

theorem bootstrap_event_not_pipeline {e : Ev} (h : e.isBootstrapEvent = true) :
    e.isPipelineAction = false := by
  cases e <;> try rfl
  all_goals try exact (Bool.false_ne_true h).elim
  rename_i tl
  cases tl <;> try rfl
  all_goals exact (Bool.false_ne_true h).elim

theorem bootstrap_filter_nil {t : List Ev} (h : t.all Ev.isBootstrapEvent = true) :
    t.filter Ev.isPipelineAction = [] := by
  rw [List.filter_eq_nil_iff]
  intro a ha
  have hb := bootstrap_event_not_pipeline (List.all_eq_true.mp h a ha)
  simp [hb]

theorem final_install_filter (env : Env) (version : String) (s s2 : St)
    (hconf : ∀ p, env.confirm p = true) :
    ((final_install env false version) s).1.filter Ev.isPipelineAction =
      (((final_install env true version) s2).1.filter Ev.isPipelineAction).filter
        (fun e => !(e == Ev.unlinkArchive) && !(e == Ev.rmdirCache)) := by
  by_cases h1 : env.fails Tool.dpkgDeb <;> by_cases h2 : env.fails Tool.aptInstallPackage <;>
    simp [final_install, runChecked, M.bind, M.pure, emit, halt, modSt, hconf, h1, h2,
      Ev.isPipelineAction, Ev.isMutation, Ev.isObservation]

theorem mbind_filter_congr {α : Type} (m : M α) (f g : α → M Unit) (s : St)
    (P Q : Ev → Bool)
    (hm : ∀ t1 s1 r1, m s = (t1, s1, r1) → (t1.filter P).filter Q = t1.filter P)
    (hfg : ∀ a t1 s1, m s = (t1, s1, Except.ok a) →
      ((f a) s1).1.filter P = ((((g a) s1).1).filter P).filter Q) :
    ((M.bind m f) s).1.filter P = (((M.bind m g) s).1.filter P).filter Q := by
  unfold M.bind
  rcases h : m s with ⟨t1, s1, r1⟩
  have hm1 := hm t1 s1 r1 h
  cases r1 with
  | error c => exact hm1.symm
  | ok a =>
    have h2 := hfg a t1 s1 h
    rcases hf : (f a) s1 with ⟨t2, s2, r2⟩
    rcases hg : (g a) s1 with ⟨t3, s3, r3⟩
    simp only [List.filter_append, hm1]
    rw [h2]

theorem install_core_filter (env : Env) (s : St)
    (hconf : ∀ p, env.confirm p = true) :
    ((install_core false env) s).1.filter Ev.isPipelineAction =
      (((install_core true env) s).1.filter Ev.isPipelineAction).filter
        (fun e => !(e == Ev.unlinkArchive) && !(e == Ev.rmdirCache)) := by
  unfold install_core
  simp only [mBind_def, mPure_def, hconf, Bool.not_true, Bool.and_false, Bool.false_and,
    Bool.false_eq_true, if_false, mbind_pure_left]
  apply mbind_filter_congr
  · intro t1 s1 r1 h1
    exact filter_stable_of_notCacheDelete
      (all_obs_notCacheDelete (get_version_info_run env s t1 s1 r1 h1).2.1)
  · intro vi t1 s1 hgvi
    apply mbind_filter_congr
    · intro t2 s2 r2 h2
      rw [apt_get_installed_version_run] at h2
      simp only [Prod.mk.injEq] at h2
      obtain ⟨ht2, hs2, hr2⟩ := h2
      subst ht2
      decide
    · intro installed t2 s2 happt
      apply mbind_filter_congr
      · intro t3 s3 r3 h3
        rw [ite_emit_run] at h3
        simp only [Prod.mk.injEq] at h3
        obtain ⟨ht3, hs3, hr3⟩ := h3
        subst ht3
        apply filter_stable_of_notCacheDelete
        exact ite_emit_all _ _ _ Ev.notCacheDelete rfl rfl
      · intro u t3 s3 hemit
        apply mbind_filter_congr
        · intro t4 s4 r4 h4
          exact filter_stable_of_notCacheDelete
            (ensure_pred_notCacheDelete (ensure_local_run env vi s3 t4 s4 r4 h4).1)
        · intro must t4 s4 hens
          apply mbind_filter_congr
          · intro t5 s5 r5 h5
            obtain ⟨ht5, -⟩ := decompress_archive_run env s4 t5 s5 r5 h5
            subst ht5
            decide
          · intro u2 t5 s5 hdec
            apply mbind_filter_congr
            · intro t6 s6 r6 h6
              exact filter_stable_of_notCacheDelete (patch_sources_run env s5 t6 s6 r6 h6).1
            · intro u3 t6 s6 hpat
              apply mbind_filter_congr
              · intro t7 s7 r7 h7
                exact filter_stable_of_notCacheDelete (assemble_tree_run env s6 t7 s7 r7 h7).1
              · intro u4 t7 s7 hasm
                have hdel0 : delete_archive_step env false must vi = M.pure () := by
                  unfold delete_archive_step
                  simp
                rw [hdel0, mbind_pure_left]
                rcases hdel : (delete_archive_step env true must vi) s7 with ⟨td, sd, rd⟩
                have HD := delete_archive_step_run env true must vi s7 td sd rd hdel
                have hrd : rd = Except.ok () := HD.1
                subst hrd
                rw [mbind_eval_ok _ _ s7 sd td () hdel]
                simp only [List.filter_append]
                rw [delete_filter_nil HD.2.2.2.2.2.2.2.2.2.2]
                simp only [List.nil_append]
                exact final_install_filter env vi.version s7 sd hconf


/-- Claim C8, counterexample: from a clean state at the benign
environment, the interactive accept-all run performs the archive
deletion and cache-directory pruning (a pipeline action), while the
silent run never reaches that gate (`full and must_download and
click.confirm(...)` is false when `full` is), so the two runs do not
produce the same pipeline actions. -/
theorem C8_counterexample :
    Ev.unlinkArchive ∈ (runInstall true baseEnv cleanSt).trace ∧
    Ev.unlinkArchive ∉ (runInstall false baseEnv cleanSt).trace ∧
    ¬((runInstall false baseEnv cleanSt).trace.filter Ev.isPipelineAction =
      (runInstall true baseEnv cleanSt).trace.filter Ev.isPipelineAction) := by
  decide

/-- Claim C8 (amended): with every prompt accepted, npm present and no
failing tool, the silent run performs exactly the pipeline actions of
the interactive accept-all run except the archive deletion and the
cache-directory pruning, which only the interactive run reaches. -/
theorem C8_silent_vs_interactive (env : Env) (s : St)
    (hconf : ∀ p, env.confirm p = true)
    (hnpm : env.npmPresent = true)
    (hfail : ∀ tl, env.fails tl = false) :
    (runInstall false env s).trace.filter Ev.isPipelineAction =
      ((runInstall true env s).trace.filter Ev.isPipelineAction).filter
        (fun e => !(e == Ev.unlinkArchive) && !(e == Ev.rmdirCache)) := by
  unfold runInstall
  rw [runM_trace, runM_trace]
  have hfalse : (do_install false env) s = (install_core false env) s := by
    simp [do_install, mbind_pure_left]
  rcases hb : (bootstrap env) s with ⟨tb, sb, rb⟩
  have hbr := bootstrap_run env s
  rw [hb] at hbr
  have hok := bootstrap_ok env s hconf hnpm (fun nm => hfail _)
  rw [hb] at hok
  have hrb : rb = Except.ok () := hok
  subst hrb
  have hsb : sb = s := hbr.1
  have htrue : (do_install true env) s
      = (tb ++ ((install_core true env) sb).1,
         ((install_core true env) sb).2.1, ((install_core true env) sb).2.2) := by
    have h1 : (do_install true env) s
        = (M.bind (bootstrap env) (fun _ => install_core true env)) s := by
      simp [do_install]
    rw [h1]
    exact mbind_eval_ok _ _ s sb tb () hb
  rw [hfalse, htrue]
  simp only [List.filter_append, bootstrap_filter_nil hbr.2, List.filter_nil,
    List.nil_append]
  rw [hsb]
  exact install_core_filter env s hconf

/-- Witness for the amended C8 at the benign accept-all environment. -/
theorem C8_silent_vs_interactive_witness :
    (∀ p, baseEnv.confirm p = true) ∧ baseEnv.npmPresent = true ∧
    (∀ tl, baseEnv.fails tl = false) ∧
    ((runInstall false baseEnv cleanSt).trace.filter Ev.isPipelineAction =
      ((runInstall true baseEnv cleanSt).trace.filter Ev.isPipelineAction).filter
        (fun e => !(e == Ev.unlinkArchive) && !(e == Ev.rmdirCache))) :=
  ⟨fun p => rfl, rfl, fun tl => rfl,
    C8_silent_vs_interactive baseEnv cleanSt (fun p => rfl) rfl (fun tl => rfl)⟩

end DiscordInstaller
